import Mathlib

/-!
Verification development for the kexuedns DNS forwarder.

Each section embeds one component of the Go sources as executable Lean
definitions (byte strings are lists of naturals below 256), and the theorems
at the end settle the specification claims against those definitions.
-/

set_option maxRecDepth 10000

namespace Kexuedns

/-! ## Crit-bit tree (src/unnamed/part_024, package critbit)

A node is either external (leaf holding key and value) or internal with two
children, the index of the differing byte, and the mask of the differing byte
(all bits except the critical bit are ones).  The Go tree root is a nullable
pointer, embedded as an `Option`.
-/

inductive CNode (V : Type) where
  | external (key : List Nat) (value : V)
  | internal (left right : CNode V) (index : Nat) (otherBits : Nat)
  deriving Repr, DecidableEq

namespace CNode

variable {V : Type}

/-- Byte of a key at an index, zero if past the end
(`c := byte(0); if n.index < len(key) { c = key[n.index] }`). -/
def byteAt (key : List Nat) (i : Nat) : Nat :=
  (key[i]?).getD 0

/-- Branch rule of `nodeInternal.direction`: OR the key byte with the mask;
`0xFF` means the critical bit is 1 (go right). -/
def direction (index otherBits : Nat) (key : List Nat) : Nat :=
  if otherBits ||| byteAt key index = 255 then 1 else 0

/-- Walk the tree for the best member, as the lookup loops in `Get`,
`insert` and `Delete` do. -/
def bestLeaf : CNode V → List Nat → List Nat × V
  | external k v, _ => (k, v)
  | internal l r idx ob, key =>
      if direction idx ob key = 1 then bestLeaf r key else bestLeaf l key

/-- Lookup (`Tree.Get`): walk to the best member and test keys for equality. -/
def get (node : CNode V) (key : List Nat) : Option V :=
  let (k, v) := bestLeaf node key
  if k = key then some v else none

/-- Find the differing byte between the best member key and the inserted key,
mirroring the `for index = 0; index < len(key); index++` loop of `insert` and
the trailing `if index < len(nodeE.key)` check.  The walk is over the bytes
of the inserted key with a running index.  Returns the index and the XOR of
the differing bytes, or `none` when the keys are equal up to implicit zero
padding. -/
def findDiffGo (nodeKey : List Nat) : List Nat → Nat → Option (Nat × Nat)
  | [], i => if i < nodeKey.length then some (i, byteAt nodeKey i) else none
  | k :: ks, i =>
      let c := byteAt nodeKey i
      if c ≠ k then some (i, c ^^^ k) else findDiffGo nodeKey ks (i + 1)

/-- The differing-byte search started at index zero. -/
def findDiff (nodeKey key : List Nat) : Option (Nat × Nat) :=
  findDiffGo nodeKey key 0

/-- SWAR step of `insert`: fold the upper bits down, keep the most significant
bit, then invert within a byte (`otherBits ^= 0xFF`). -/
def critMask (x : Nat) : Nat :=
  let x1 := x ||| (x >>> 1)
  let x2 := x1 ||| (x1 >>> 2)
  let x3 := x2 ||| (x2 >>> 4)
  let msb := x3 &&& ((x3 >>> 1) ^^^ 255)
  msb ^^^ 255

/-- Replace the value at the best-member leaf (the `nodeE.value = value`
mutation in the replace branch of `insert`). -/
def updateBest : CNode V → List Nat → V → CNode V
  | external k _, _, v2 => external k v2
  | internal l r idx ob, key, v2 =>
      if direction idx ob key = 1 then internal l (updateBest r key v2) idx ob
      else internal (updateBest l key v2) r idx ob

/-- Descend to the insert position (`wherep` walk of `insert`): stop at an
external node, or when the node's crit position lies after the new one, and
graft the new internal node there. -/
def insertWalk (node : CNode V) (key : List Nat) (index otherBits : Nat)
    (graft : CNode V → CNode V) : CNode V :=
  match node with
  | external k v => graft (external k v)
  | internal l r idx ob =>
      if index < idx ∨ (idx = index ∧ otherBits < ob) then
        graft (internal l r idx ob)
      else if direction idx ob key = 1 then
        internal l (insertWalk r key index otherBits graft) idx ob
      else
        internal (insertWalk l key index otherBits graft) r idx ob

end CNode

/-- The crit-bit tree: a nullable root. -/
abbrev CTree (V : Type) := Option (CNode V)

namespace CTree

variable {V : Type}

open CNode

/-- Insert/update (`Tree.insert`).  The result is `none` exactly when the Go
code would hit its `panic("assertion failure")`: the keys agree up to implicit
zero padding but are not literally equal. -/
def insert (root : CTree V) (key : List Nat) (value : V) (replace : Bool) :
    Option (CTree V) :=
  match root with
  | none => some (some (CNode.external key value))
  | some node =>
      let bk := (bestLeaf node key).1
      match findDiff bk key with
      | none =>
          if bk = key then
            if replace then some (some (updateBest node key value))
            else some (some node)
          else none
      | some (index, diff) =>
          let otherBits := critMask diff
          let newE : CNode V := CNode.external key value
          let dir0 := direction index otherBits bk
          let graft : CNode V → CNode V := fun sub =>
            if dir0 = 1 then CNode.internal newE sub index otherBits
            else CNode.internal sub newE index otherBits
          some (some (insertWalk node key index otherBits graft))

/-- Set (`Tree.Set`): insert with replacement of the existing value. -/
def set (root : CTree V) (key : List Nat) (value : V) : Option (CTree V) :=
  insert root key value true

/-- Lookup (`Tree.Get`). -/
def get (root : CTree V) (key : List Nat) : Option V :=
  match root with
  | none => none
  | some node => node.get key

/-- Rightmost leaf of a subtree (the `always right` inner loop of
`LongestPrefix`). -/
def rightmostLeaf : CNode V → List Nat × V
  | .external k v => (k, v)
  | .internal _ r _ _ => rightmostLeaf r

/-- Iterative `Tree.LongestPrefix` main loop: descend by the key's direction;
before going right, check the rightmost leaf of the left sibling; remember the
most recently found prefix in `last`. -/
def longestPrefixLoop : CNode V → List Nat → Option (List Nat × V) →
    Option (List Nat × V)
  | .external k v, key, last =>
      if k.isPrefixOf key then some (k, v) else last
  | .internal l r idx ob, key, last =>
      if direction idx ob key = 1 then
        let rm := rightmostLeaf l
        let last2 := if rm.1.isPrefixOf key then some rm else last
        longestPrefixLoop r key last2
      else longestPrefixLoop l key last

/-- Iterative `Tree.LongestPrefix`. -/
def longestPrefix (root : CTree V) (key : List Nat) : Option (List Nat × V) :=
  match root with
  | none => none
  | some node => longestPrefixLoop node key none

/-- Recursive `Tree.longestPrefixR`: try the subtree of the key's direction,
and when that fails after a right turn, search the whole left sibling. -/
def longestPrefixRAux : CNode V → List Nat → Option (List Nat × V)
  | .external k v, key =>
      if k.isPrefixOf key then some (k, v) else none
  | .internal l r idx ob, key =>
      if direction idx ob key = 1 then
        match longestPrefixRAux r key with
        | some res => some res
        | none => longestPrefixRAux l key
      else longestPrefixRAux l key

/-- Recursive `Tree.LongestPrefixR`. -/
def longestPrefixR (root : CTree V) (key : List Nat) :
    Option (List Nat × V) :=
  match root with
  | none => none
  | some node => longestPrefixRAux node key

end CTree

/-! ## DNS trie (src/util/dnstrie/dnstrie.go)

Zone names are byte strings.  `NewKey` strips one trailing dot, lowercases via
the 256-byte table, reverses, and appends a dot sentinel.
-/

namespace DNSTrie

/-- The `keyXTable` lowercase table: ASCII uppercase letters map to lowercase,
everything else is unchanged. -/
def lowerByte (c : Nat) : Nat :=
  if 65 ≤ c ∧ c ≤ 90 then c - 65 + 97 else c

/-- Drop one trailing dot byte, as `strings.TrimSuffix(dname, ".")` does. -/
def trimDot (dname : List Nat) : List Nat :=
  if dname.getLast? = some 46 then dname.dropLast else dname

/-- Transform a DNS name into a trie lookup key (`dnstrie.NewKey`):
trim the final dot, lowercase, reverse, append a dot. -/
def newKey (dname : List Nat) : List Nat :=
  ((trimDot dname).map lowerByte).reverse ++ [46]

/-- Add a zone (`DNSTrie.AddZone`): `tree.Set(NewKey(name), name)`, storing
the original name as the value.  `none` models the unreachable crit-bit
insert panic. -/
def addZone (t : CTree (List Nat)) (name : List Nat) :
    Option (CTree (List Nat)) :=
  CTree.set t (newKey name) name

/-- Build a trie by adding a list of zones in order. -/
def trieOfZones (zones : List (List Nat)) : Option (CTree (List Nat)) :=
  zones.foldlM addZone (none : CTree (List Nat))

/-- Match a name against the trie (`DNSTrie.Match`): longest prefix of the
transformed key, via the iterative `LongestPrefix`. -/
def matchName (t : CTree (List Nat)) (name : List Nat) : Option (List Nat) :=
  (CTree.longestPrefix t (newKey name)).map (fun p => p.1)

/-- The same match through the recursive `LongestPrefixR`, which the crit-bit
tests require to agree with the iterative one on every input they try. -/
def matchNameR (t : CTree (List Nat)) (name : List Nat) :
    Option (List Nat) :=
  (CTree.longestPrefixR t (newKey name)).map (fun p => p.1)

/-- Canonical form of a name as the claim compares names: case-insensitively
and ignoring a trailing dot. -/
def canonName (n : List Nat) : List Nat :=
  (trimDot n).map lowerByte

/-- The claim's zone-match condition: the name equals the zone or ends with
a dot followed by the zone. -/
def zoneMatches (n z : List Nat) : Bool :=
  canonName n = canonName z ∨ (46 :: canonName z).isSuffixOf (canonName n)

end DNSTrie

/-! ## TTL cache (src/unnamed/part_021, package ttlcache)

The cache maps string keys to items carrying a value and an `expireAt`
nanosecond timestamp (`-1` meaning no expiry).  Wall-clock reads
(`time.Now().UnixNano()`) become an explicit `now : Int` argument; the
`sync.Pool` item recycling has no observable effect and is not modelled.
Each operation returns the new cache, the list of eviction-callback
invocations it performs, and its result.
-/

namespace TtlCache

structure CacheItem (V : Type) where
  value : V
  expireAt : Int
  deriving Repr, DecidableEq

/-- Expiry test (`cacheItem.isExpired`): expired iff `expireAt > 0` and
`expireAt < now`. -/
def isExpired (it : CacheItem V) (now : Int) : Bool :=
  it.expireAt > 0 ∧ it.expireAt < now

/-- Compute `expireAt` (`Cache.getExpireAt`): negative TTL means never expire,
zero means the cache's default TTL, else `now + ttl`. -/
def getExpireAt (defaultTTL ttl now : Int) : Int :=
  if ttl < 0 then -1
  else if ttl = 0 then now + defaultTTL
  else now + ttl

structure Cache (V : Type) where
  defaultTTL : Int
  items : List (String × CacheItem V)
  deriving Repr

/-- Map lookup on the item association list. -/
def find (items : List (String × CacheItem V)) (k : String) :
    Option (CacheItem V) :=
  match items with
  | [] => none
  | (k2, it) :: rest => if k2 = k then some it else find rest k

/-- Map assignment `c.items[key] = item`: replace in place, or append. -/
def store (items : List (String × CacheItem V)) (k : String)
    (it : CacheItem V) : List (String × CacheItem V) :=
  match items with
  | [] => [(k, it)]
  | (k2, it2) :: rest =>
      if k2 = k then (k, it) :: rest else (k2, it2) :: store rest k it

/-- Map deletion `delete(c.items, key)`. -/
def erase (items : List (String × CacheItem V)) (k : String) :
    List (String × CacheItem V) :=
  match items with
  | [] => []
  | (k2, it2) :: rest =>
      if k2 = k then rest else (k2, it2) :: erase rest k

/-- `Cache.Add`: fail (no change) when the key exists and is still valid,
otherwise store the value with the computed expiry.  The `Bool` result is
true when the add succeeded (Go returns `ErrKeyExists` otherwise). -/
def add (c : Cache V) (now : Int) (k : String) (v : V) (ttl : Int) :
    Cache V × List (String × V) × Bool :=
  match find c.items k with
  | some it =>
      if isExpired it now then
        ({ c with items := store c.items k ⟨v, getExpireAt c.defaultTTL ttl now⟩ },
         [], true)
      else (c, [], false)
  | none =>
      ({ c with items := store c.items k ⟨v, getExpireAt c.defaultTTL ttl now⟩ },
       [], true)

/-- `Cache.Set`: overwrite unconditionally; no eviction callback. -/
def setK (c : Cache V) (now : Int) (k : String) (v : V) (ttl : Int) :
    Cache V × List (String × V) :=
  ({ c with items := store c.items k ⟨v, getExpireAt c.defaultTTL ttl now⟩ }, [])

/-- `Cache.Get`: return the value iff present and valid; expired entries are
left for the sweeper. -/
def getK (c : Cache V) (now : Int) (k : String) : Option V :=
  match find c.items k with
  | none => none
  | some it => if isExpired it now then none else some it.value

/-- `Cache.Pop`: remove synchronously if present, skip the eviction callback,
and return the value only when the entry was still valid. -/
def pop (c : Cache V) (now : Int) (k : String) :
    Cache V × List (String × V) × Option V :=
  match find c.items k with
  | none => (c, [], none)
  | some it =>
      ({ c with items := erase c.items k }, [],
       if isExpired it now then none else some it.value)

/-- `Cache.Delete`: remove synchronously if present and invoke the eviction
callback exactly once with the removed value. -/
def delete (c : Cache V) (k : String) : Cache V × List (String × V) :=
  match find c.items k with
  | none => (c, [])
  | some it => ({ c with items := erase c.items k }, [(k, it.value)])

/-- One sweep of the background cleaner (`Cache.clean` tick): delete every
expired entry and invoke the eviction callback once for each. -/
def clean (c : Cache V) (now : Int) : Cache V × List (String × V) :=
  ({ c with items := c.items.filter (fun kv => ¬ isExpired kv.2 now) },
   (c.items.filter (fun kv => isExpired kv.2 now)).map
     (fun kv => (kv.1, kv.2.value)))

/-- A cache operation with its wall-clock instant. -/
inductive Op (V : Type) where
  | add (now : Int) (k : String) (v : V) (ttl : Int)
  | set (now : Int) (k : String) (v : V) (ttl : Int)
  | get (now : Int) (k : String)
  | pop (now : Int) (k : String)
  | delete (k : String)
  | clean (now : Int)

/-- Apply one operation, returning the new cache and the callback events. -/
def step (c : Cache V) : Op V → Cache V × List (String × V)
  | .add now k v ttl => (let r := add c now k v ttl; (r.1, r.2.1))
  | .set now k v ttl => setK c now k v ttl
  | .get _ _ => (c, [])
  | .pop now k => (let r := pop c now k; (r.1, r.2.1))
  | .delete k => delete c k
  | .clean now => clean c now

/-- Run a sequence of operations, concatenating the callback events. -/
def run (c : Cache V) : List (Op V) → Cache V × List (String × V)
  | [] => (c, [])
  | op :: ops =>
      let r := step c op
      let rest := run r.1 ops
      (rest.1, r.2 ++ rest.2)

/-- Number of eviction-callback invocations for key `k` in an event list. -/
def evCount (k : String) (evs : List (String × V)) : Nat :=
  (evs.filter (fun e => e.1 = k)).length

/-- Number of operations that (re)insert key `k`. -/
def insCount (k : String) : List (Op V) → Nat
  | [] => 0
  | .add _ k2 _ _ :: ops => (if k2 = k then 1 else 0) + insCount k ops
  | .set _ k2 _ _ :: ops => (if k2 = k then 1 else 0) + insCount k ops
  | _ :: ops => insCount k ops

/-- Whether key `k` is physically present in the cache map. -/
def present (c : Cache V) (k : String) : Bool :=
  (find c.items k).isSome

/-- 1/0 indicator of physical presence, for counting arguments. -/
def presentN (c : Cache V) (k : String) : Nat :=
  if present c k then 1 else 0

/-- A concrete operation sequence exercising insert, sweep, delete and pop. -/
def wOps : List (Op Nat) :=
  [.add 0 "a" 1 5, .clean 10, .add 20 "a" 2 5, .delete "a", .pop 30 "a"]

/-- Well-formedness of the underlying map: keys are pairwise distinct. -/
def WF (c : Cache V) : Prop :=
  c.items.Pairwise (fun a b => a.1 ≠ b.1)

end TtlCache

/-! ## Router (src/dns/router.go)

`Router` holds a default resolver and a fixed array of `MaxRoutes = 10`
nullable routes.  Resolver handles are abstracted to their export names and a
route's trie to its exported zone list; `Export` reads `rr.name` on every
slot without a nil check, so a `none` slot makes the snapshot undefined
(a nil-pointer dereference), embedded as `none`.
-/

namespace Router

/-- Maximum number of routes supported in a router. -/
def maxRoutes : Nat := 10

structure Route where
  name : String
  resolver : Option String
  trie : Option (List String)
  deriving Repr, DecidableEq

structure RouteExport where
  index : Nat
  name : String
  resolver : Option String
  zones : List String
  deriving Repr, DecidableEq

structure RouterState where
  resolver : Option String
  routes : List (Option Route)
  deriving Repr, DecidableEq

structure RouterExport where
  resolver : Option String
  routes : List RouteExport
  deriving Repr, DecidableEq

/-- Export of one route slot at array index `i` (`Index: i + 1`); the
resolver and trie fields are nil-checked by the source. -/
def routeExportOf (i : Nat) (rr : Route) : RouteExport :=
  { index := i + 1
    name := rr.name
    resolver := rr.resolver
    zones := rr.trie.getD [] }

/-- The `for i, rr := range r.routes` loop of `Router.Export`: reading
`rr.name` of a nil slot dereferences a nil pointer, modelled as `none`. -/
def exportRoutes (i : Nat) : List (Option Route) → Option (List RouteExport)
  | [] => some []
  | none :: _ => none
  | some rr :: rest =>
      (exportRoutes (i + 1) rest).map (fun l => routeExportOf i rr :: l)

/-- `Router.Export`: snapshot of the default resolver and all route slots. -/
def exportRouter (r : RouterState) : Option RouterExport :=
  (exportRoutes 0 r.routes).map (fun l => { resolver := r.resolver, routes := l })

/-- A freshly created router: no default resolver, all ten slots unset. -/
def freshRouter : RouterState :=
  { resolver := none, routes := List.replicate maxRoutes none }

end Router

/-! ## Resolver export validation (src/dns/resolver.go, `Validate`)

`netip.ParseAddrPort` is an external library call; it is modelled for
dotted-quad IPv4 `"a.b.c.d:port"` literals, which is the only shape the
concrete inputs below use.  The defaults are those of `defaultPoolSize`,
`defaultTimeouts` and `defaultKeepAlive`.
-/

namespace Resolver

/-- Decimal digits to a number, `none` on a non-digit. -/
def digitsVal : List Char → Option Nat
  | [] => some 0
  | c :: cs =>
      if c.isDigit then
        (digitsVal cs).map (fun v => v * 10 ^ cs.length + (c.toNat - 48))
      else none

/-- Validity of one IPv4 component: 1 to 3 digits, no leading zero unless the
component is exactly "0", value at most 255. -/
def ipv4Component (s : List Char) : Option Nat :=
  match digitsVal s with
  | none => none
  | some v =>
      if s.length = 0 ∨ 3 < s.length then none
      else if 1 < s.length ∧ s.headD '0' = '0' then none
      else if 255 < v then none
      else some v

/-- Split a character list on a separator. -/
def splitOn (sep : Char) (s : List Char) : List (List Char) :=
  match s with
  | [] => [[]]
  | c :: cs =>
      let rest := splitOn sep cs
      if c = sep then [] :: rest
      else match rest with
           | [] => [[c]]
           | r :: rs => (c :: r) :: rs

/-- Model of `netip.ParseAddrPort` for IPv4 `"a.b.c.d:port"` literals:
returns the canonical address string on success.
Modelled from the Go standard library contract; only dotted-quad IPv4 forms
are covered, everything else is rejected. -/
def parseAddrPort (s : String) : Option String :=
  match splitOn ':' s.data with
  | [addr, port] =>
      match splitOn '.' addr with
      | [a, b, c, d] =>
          match ipv4Component a, ipv4Component b, ipv4Component c,
                ipv4Component d, digitsVal port with
          | some va, some vb, some vc, some vd, some vp =>
              if port.length = 0 ∨ 65535 < vp then none
              else some (toString va ++ "." ++ toString vb ++ "." ++
                         toString vc ++ "." ++ toString vd ++ ":" ++
                         toString vp)
          | _, _, _, _, _ => none
      | _ => none
  | _ => none

structure ResolverExport where
  name : String
  protocol : String
  address : String
  serverName : String
  poolMaxConns : Int
  poolIdleConns : Int
  dialTimeout : Int
  handshakeTimeout : Int
  keepaliveEnable : Bool
  keepaliveIdle : Int
  keepaliveInterval : Int
  keepaliveCount : Int
  deriving Repr, DecidableEq

/-- Defaults of `defaultPoolSize`, `defaultTimeouts` (seconds) and
`defaultKeepAlive` (seconds) in src/dns/resolver.go. -/
def defaultPoolMaxConns : Int := 20
def defaultPoolIdleConns : Int := 10
def defaultDialTimeout : Int := 5
def defaultHandshakeTimeout : Int := 5
def defaultKeepaliveIdle : Int := 15
def defaultKeepaliveInterval : Int := 15
def defaultKeepaliveCount : Int := 3

/-- `ResolverExport.Validate`: reject an unparsable address, default the
name, pool sizes and timeouts, and normalize the keep-alive fields.  The
keep-alive branch reproduces the source verbatim, including the assignment
of the count default to `KeepaliveIdle` when `KeepaliveCount` is zero. -/
def validate (re : ResolverExport) : Option ResolverExport :=
  match parseAddrPort re.address with
  | none => none
  | some canonical =>
      let re :=
        if re.name = "" then
          if re.serverName ≠ "" then { re with name := re.serverName }
          else { re with name := canonical }
        else re
      let re :=
        if re.poolMaxConns = 0 then { re with poolMaxConns := defaultPoolMaxConns }
        else re
      let re :=
        if re.poolIdleConns = 0 then { re with poolIdleConns := defaultPoolIdleConns }
        else re
      let re :=
        if re.dialTimeout = 0 then { re with dialTimeout := defaultDialTimeout }
        else re
      let re :=
        if re.handshakeTimeout = 0 then
          { re with handshakeTimeout := defaultHandshakeTimeout }
        else re
      let re :=
        if re.keepaliveEnable then
          let re :=
            if re.keepaliveIdle = 0 then
              { re with keepaliveIdle := defaultKeepaliveIdle }
            else re
          let re :=
            if re.keepaliveInterval = 0 then
              { re with keepaliveInterval := defaultKeepaliveInterval }
            else re
          let re :=
            if re.keepaliveCount = 0 then
              { re with keepaliveIdle := defaultKeepaliveCount }
            else re
          re
        else re
      some re

end Resolver

/-! ## UDP resolver query-ID remapping (src/dns/resolver.go, `ResolverUDP`)

`dnsmsg.RawMsg.GetID`/`SetID` live in the absent `util/dnsmsg` file.
Modelled from the spec: byte-level reads/writes of the big-endian query ID at
offsets 0 and 1 (spec section 4.1; exercised by `TestRawMsg1`).  A message
shorter than two bytes makes the Go code panic, embedded as `none`.
-/

namespace ResolverUDP

/-- Modelled from the spec: `get_id(raw)` reads the big-endian 16-bit ID at
offsets 0 and 1. -/
def getID (msg : List Nat) : Option Nat := do
  let a ← msg[0]?
  let b ← msg[1]?
  pure (a * 256 + b)

/-- Modelled from the spec: `set_id(raw, id)` writes the big-endian 16-bit ID
at offsets 0 and 1. -/
def setID (msg : List Nat) (id : Nat) : Option (List Nat) :=
  match msg with
  | _ :: _ :: rest => some (id / 256 % 256 :: id % 256 :: rest)
  | _ => none

/-- Happy path of `ResolverUDP.Query` with the delivery step of `receive`:
save the client ID, rewrite the outbound message under the freshly drawn
`newQID` that keys the session map, deliver the upstream response iff its ID
matches the session key, and restore the client ID on the delivered bytes.
Returns the wire query and the reply handed back to the caller. -/
def query (msg : List Nat) (newQID : Nat) (upResp : List Nat) :
    Option (List Nat × List Nat) := do
  let oldQID ← getID msg
  let wire ← setID msg newQID
  let respID ← getID upResp
  if respID = newQID then
    let reply ← setID upResp oldQID
    pure (wire, reply)
  else none

end ResolverUDP

/-! ## DNS wire codec (src/unnamed/part_006, package dns; library model)

The codec delegates wire handling to `golang.org/x/net/dns/dnsmessage`; the
parts of that library the repository exercises (header, question, resource
header and OPT parsing, name unpacking with compression pointers, message
packing) are modelled here byte for byte.  A message is a list of naturals
below 256; a `Name` is kept in the textual form the library stores (label
bytes joined and terminated by dots), and all failures become `none`.
-/

namespace Dnsmsg

/-- Read a big-endian 16-bit value at an offset. -/
def getU16 (msg : List Nat) (off : Nat) : Option Nat := do
  let a ← msg[off]?
  let b ← msg[off + 1]?
  pure (a * 256 + b)

/-- Read a big-endian 32-bit value at an offset. -/
def getU32 (msg : List Nat) (off : Nat) : Option Nat := do
  let a ← getU16 msg off
  let b ← getU16 msg (off + 2)
  pure (a * 65536 + b)

/-- Name unpacking (`Name.unpack` of the library): walk length-prefixed
labels, follow at most ten compression pointers, accumulate the textual name
(labels joined and terminated by dots, the root name being a single dot), and
cap the text at 255 bytes.  The return offset is the offset after the first
pointer when one was followed, else after the terminating zero. -/
def parseNameAux (msg : List Nat) :
    Nat → Nat → Nat → Option Nat → List Nat → Option (List Nat × Nat)
  | 0, _, _, _, _ => none
  | fuel + 1, curr, ptrCnt, retOff, acc => do
      let c ← msg[curr]?
      if c = 0 then
        let text := if acc = [] then [46] else acc
        if text.length ≤ 255 then some (text, retOff.getD (curr + 1)) else none
      else if c < 64 then
        if curr + 1 + c ≤ msg.length then
          parseNameAux msg fuel (curr + 1 + c) ptrCnt retOff
            (acc ++ (msg.drop (curr + 1)).take c ++ [46])
        else none
      else if 192 ≤ c then do
        let c1 ← msg[curr + 1]?
        if 10 < ptrCnt + 1 then none
        else
          parseNameAux msg fuel ((c - 192) * 256 + c1) (ptrCnt + 1)
            (some (retOff.getD (curr + 2))) acc
      else none

/-- Name unpacking entry point with ample fuel (the library loop always
terminates within eleven passes over the message). -/
def parseName (msg : List Nat) (off : Nat) : Option (List Nat × Nat) :=
  parseNameAux msg (11 * (msg.length + 2)) off 0 none []

structure Question where
  name : List Nat
  qtype : Nat
  qclass : Nat
  deriving Repr, DecidableEq

/-- Question parsing (`Parser.Question`): name, then type and class. -/
def parseQuestion (msg : List Nat) (off : Nat) : Option (Question × Nat) := do
  let (name, off1) ← parseName msg off
  let t ← getU16 msg off1
  let cl ← getU16 msg (off1 + 2)
  pure (⟨name, t, cl⟩, off1 + 4)

structure WireHeader where
  id : Nat
  flags : Nat
  qd : Nat
  an : Nat
  ns : Nat
  ar : Nat
  deriving Repr, DecidableEq

/-- Header parsing (`Parser.Start`): six big-endian 16-bit fields. -/
def parseHeader (msg : List Nat) : Option WireHeader := do
  let id ← getU16 msg 0
  let flags ← getU16 msg 2
  let qd ← getU16 msg 4
  let an ← getU16 msg 6
  let ns ← getU16 msg 8
  let ar ← getU16 msg 10
  pure ⟨id, flags, qd, an, ns, ar⟩

structure RHeader where
  name : List Nat
  rtype : Nat
  class_ : Nat
  ttl : Nat
  rlength : Nat
  deriving Repr, DecidableEq

/-- Resource header parsing (`ResourceHeader.unpack`): name, type, class,
TTL, and data length. -/
def parseRHeader (msg : List Nat) (off : Nat) : Option (RHeader × Nat) := do
  let (name, off1) ← parseName msg off
  let t ← getU16 msg off1
  let cl ← getU16 msg (off1 + 2)
  let ttl ← getU32 msg (off1 + 4)
  let l ← getU16 msg (off1 + 8)
  pure (⟨name, t, cl, ttl, l⟩, off1 + 10)

/-- Skip the remaining questions (`Parser.SkipAllQuestions`). -/
def skipQuestions (msg : List Nat) : Nat → Nat → Option Nat
  | off, 0 => some off
  | off, n + 1 => do
      let (_, off2) ← parseQuestion msg off
      skipQuestions msg off2 n

/-- Skip a whole section of resources (`Parser.SkipAllAnswers` and
`SkipAllAuthorities`): parse each header and jump over the declared data
length, which must fit in the message. -/
def skipResources (msg : List Nat) : Nat → Nat → Option Nat
  | off, 0 => some off
  | off, n + 1 => do
      let (h, off2) ← parseRHeader msg off
      if off2 + h.rlength ≤ msg.length then
        skipResources msg (off2 + h.rlength) n
      else none

/-- OPT option-list parsing (`unpackOPTResource`): read (code, length, data)
triples while inside the declared record; the data read is bounded by the
message, not the record, as in the library. -/
def parseOptions (msg : List Nat) (endOff : Nat) :
    Nat → Nat → Option (List (Nat × List Nat))
  | 0, off => if off < endOff then none else some []
  | fuel + 1, off =>
      if off < endOff then do
        let code ← getU16 msg off
        let l ← getU16 msg (off + 2)
        if off + 4 + l ≤ msg.length then
          (parseOptions msg endOff fuel (off + 4 + l)).map
            (fun rest => (code, (msg.drop (off + 4)).take l) :: rest)
        else none
      else some []

structure OptData where
  header : RHeader
  options : List (Nat × List Nat)
  deriving Repr, DecidableEq

/-- The additionals walk shared by the parse-query revisions: for each
remaining record read its header; a non-OPT record's unread body is skipped
by the next header read; an OPT record's options are parsed, and the capture
policy decides whether the first or the most recent OPT is kept. -/
def walkAdditionals (msg : List Nat) (keepFirst : Bool) :
    Nat → Nat → Option OptData → Option (Option OptData)
  | _, 0, acc => some acc
  | off, n + 1, acc => do
      let (h, off2) ← parseRHeader msg off
      if h.rtype = 41 then do
        let opts ← parseOptions msg (off2 + h.rlength) (h.rlength + 1) off2
        let acc2 := if keepFirst ∧ acc.isSome then acc else some ⟨h, opts⟩
        walkAdditionals msg keepFirst (off2 + h.rlength) n acc2
      else
        if off2 + h.rlength ≤ msg.length then
          walkAdditionals msg keepFirst (off2 + h.rlength) n acc
        else none

/-- Collect every OPT record of the additionals section in order, stepping
through the records exactly as `walkAdditionals` does. -/
def collectAdditionals (msg : List Nat) :
    Nat → Nat → Option (List OptData)
  | _, 0 => some []
  | off, n + 1 => do
      let (h, off2) ← parseRHeader msg off
      if h.rtype = 41 then do
        let opts ← parseOptions msg (off2 + h.rlength) (h.rlength + 1) off2
        (collectAdditionals msg (off2 + h.rlength) n).map
          (fun rest => (⟨h, opts⟩ : OptData) :: rest)
      else
        if off2 + h.rlength ≤ msg.length then
          collectAdditionals msg (off2 + h.rlength) n
        else none

structure QueryMsg where
  header : WireHeader
  question : Question
  opt : Option OptData
  deriving Repr, DecidableEq

/-- The shared front of the parse chain: header, first question, skip the
remaining questions, the answers and the authorities, returning the header,
the question and the offset of the additionals section. -/
def parsePreamble (msg : List Nat) : Option (WireHeader × Question × Nat) := do
  let h ← parseHeader msg
  if h.qd = 0 then none
  else do
    let (q, off1) ← parseQuestion msg 12
    let off2 ← skipQuestions msg off1 (h.qd - 1)
    let off3 ← skipResources msg off2 h.an
    let off4 ← skipResources msg off3 h.ns
    pure (h, q, off4)

/-- The parse chain shared by the parse-query revisions: the preamble, then
the walk of the additionals for EDNS. -/
def parseQueryMsg (msg : List Nat) (keepFirst : Bool) : Option QueryMsg := do
  let (h, q, off4) ← parsePreamble msg
  let opt ← walkAdditionals msg keepFirst off4 h.ar none
  pure ⟨h, q, opt⟩

/-- Modelled from the spec: `util/dnsmsg.NewQueryMsg`, whose implementation
file is absent from the sources (only `dnsmsg_test.go` and its callers are
present).  Per spec section 4.1 it captures the first OPT record of the
additionals and drops later ones, the behaviour `TestQueryMsg3` requires. -/
def newQueryMsg (msg : List Nat) : Option QueryMsg :=
  parseQueryMsg msg true

/-- The older in-source revisions (`ParseQuery` in src/dns/message.go and
`NewQueryMsg` in src/unnamed/part_006) run the same chain but overwrite the
captured OPT on every OPT record, keeping the last one. -/
def parseQueryDns (msg : List Nat) : Option QueryMsg :=
  parseQueryMsg msg false

/-- All OPT records of a message, by the same parse chain, as the reference
for which OPT a parse-query revision materializes. -/
def msgOPTs (msg : List Nat) : Option (List OptData) := do
  let (h, _, off4) ← parsePreamble msg
  collectAdditionals msg off4 h.ar

/-- ASCII lowering of the name text, modelling `strings.ToLower` on the
ASCII domain names the code handles. -/
def lowerText (text : List Nat) : List Nat :=
  text.map (fun c => if 65 ≤ c ∧ c ≤ 90 then c + 32 else c)

/-- Rendering of `dnsmessage.Type` values (`Type.String`): the named
constants of the library, a plain number otherwise. -/
def typeString (t : Nat) : String :=
  if t = 1 then "TypeA" else if t = 2 then "TypeNS"
  else if t = 5 then "TypeCNAME" else if t = 6 then "TypeSOA"
  else if t = 11 then "TypeWKS" else if t = 12 then "TypePTR"
  else if t = 13 then "TypeHINFO" else if t = 14 then "TypeMINFO"
  else if t = 15 then "TypeMX" else if t = 16 then "TypeTXT"
  else if t = 28 then "TypeAAAA" else if t = 33 then "TypeSRV"
  else if t = 41 then "TypeOPT" else if t = 252 then "TypeAXFR"
  else if t = 255 then "TypeALL" else toString t

/-- Byte list to the string it spells (name texts are ASCII). -/
def textString (text : List Nat) : String :=
  String.mk (text.map Char.ofNat)

/-- The session key string `"{id}:{qtype}:{lowercase(qname)}"` of
`QuerySession.String`. -/
def sessionKeyString (id qtype : Nat) (name : List Nat) : String :=
  toString id ++ ":" ++ typeString qtype ++ ":" ++ textString (lowerText name)

/-- `RawMsg.SessionKey` (src/unnamed/part_006): parse only the header and the
first question and compose the session key. -/
def rawSessionKey (msg : List Nat) : Option String := do
  let h ← parseHeader msg
  if h.qd = 0 then none
  else do
    let (q, _) ← parseQuestion msg 12
    pure (sessionKeyString h.id q.qtype q.name)

/-- `QueryMsg.SessionKey` (src/unnamed/part_006): same key from the parsed
view. -/
def querySessionKey (m : QueryMsg) : String :=
  sessionKeyString m.header.id m.question.qtype m.question.name

/-- Big-endian 16-bit packing. -/
def packU16 (n : Nat) : List Nat := [n / 256 % 256, n % 256]

/-- Big-endian 32-bit packing. -/
def packU32 (n : Nat) : List Nat :=
  [n / 16777216 % 256, n / 65536 % 256, n / 256 % 256, n % 256]

/-- Split a byte list at dot bytes into segments. -/
def splitDots : List Nat → List (List Nat)
  | [] => [[]]
  | c :: cs =>
      let r := splitDots cs
      if c = 46 then [] :: r
      else
        match r with
        | [] => [[c]]
        | s :: rest => (c :: s) :: rest

/-- The label encoding of `Name.pack`: each segment as a counted string. -/
def encodeSegs (segs : List (List Nat)) : List Nat :=
  segs.flatMap (fun s => s.length :: s)

/-- Segments joined with a trailing dot after each, the text form built by
`Name.unpack`. -/
def joinD (segs : List (List Nat)) : List Nat :=
  segs.flatMap (fun s => s ++ [46])

/-- Name packing (`Name.pack`): the text must be non-empty, dot-terminated
and at most 255 bytes; the root name packs to a single zero byte; otherwise
the dot-separated segments must be non-empty and shorter than 64 bytes and
are emitted as counted strings followed by a zero byte.  The question name is
the first name of the message, hence never compressed. -/
def packName (text : List Nat) : Option (List Nat) :=
  if text.length = 0 ∨ 255 < text.length then none
  else if text.getLast? ≠ some 46 then none
  else if text = [46] then some [0]
  else
    let segs := (splitDots text).dropLast
    if segs.all (fun s => s.length ≠ 0 ∧ s.length < 64) then
      some (segs.flatMap (fun s => s.length :: s) ++ [0])
    else none

/-- Header packing (`header.pack` under `Message.Pack`): the section counts
come from the slice lengths, not from the parsed header. -/
def packHeader (h : WireHeader) (qd an ns ar : Nat) : List Nat :=
  packU16 h.id ++ packU16 h.flags ++ packU16 qd ++ packU16 an ++
    packU16 ns ++ packU16 ar

/-- Question packing: name, type, class. -/
def packQuestion (q : Question) : Option (List Nat) :=
  (packName q.name).map (fun nw => nw ++ packU16 q.qtype ++ packU16 q.qclass)

/-- OPT resource packing: header fields, then the options as (code, length,
data) triples with the data length fixed up from the packed body. -/
def packOptRR (o : OptData) : Option (List Nat) := do
  let nw ← packName o.header.name
  let body := o.options.flatMap
    (fun op => packU16 op.1 ++ packU16 op.2.length ++ op.2)
  pure (nw ++ packU16 o.header.rtype ++ packU16 o.header.class_ ++
        packU32 o.header.ttl ++ packU16 body.length ++ body)

/-- `QueryMsg.Build` (src/unnamed/part_006): re-pack the header, the single
stored question and, when present, the single OPT additional. -/
def build (m : QueryMsg) : Option (List Nat) := do
  let qw ← packQuestion m.question
  match m.opt with
  | none => pure (packHeader m.header 1 0 0 0 ++ qw)
  | some o => do
      let ow ← packOptRR o
      pure (packHeader m.header 1 0 0 1 ++ qw ++ ow)

/-! ### EDNS client subnet injection (src/unnamed/part_006, `SetEdnsSubnet`) -/

/-- A `netip.Addr` as the code distinguishes it: a 4-byte IPv4 (`Is4`) or a
16-byte IPv6 form. -/
inductive Addr where
  | v4 (bytes : List Nat)
  | v6 (bytes : List Nat)
  deriving Repr, DecidableEq

def Addr.bytes : Addr → List Nat
  | .v4 bs => bs
  | .v6 bs => bs

def Addr.isUnspecified : Addr → Bool
  | .v4 bs => bs.all (· = 0)
  | .v6 bs => bs.all (· = 0)

/-- The OPT pseudo-header produced by `ResourceHeader.SetEDNS0(1232,
RCodeSuccess, false)`: root name, type OPT, class = payload size 1232,
zero TTL. -/
def ednsHeader : RHeader :=
  { name := [46], rtype := 41, class_ := 1232, ttl := 0, rlength := 0 }

/-- One byte masked to its top `keep` bits: the bits below `8 - keep` are
cleared. -/
def maskByte (keep b : Nat) : Nat :=
  b / 2 ^ (8 - keep) * 2 ^ (8 - keep)

/-- Mask address bytes to a prefix length (a model of `netip.Addr.Prefix`
followed by `As4`/`As16`): byte `i` keeps its top `min 8 (plen - 8 i)`
bits. -/
def maskBytesGo (plen : Nat) : Nat → List Nat → List Nat
  | _, [] => []
  | i, b :: rest => maskByte (min 8 (plen - 8 * i)) b :: maskBytesGo plen (i + 1) rest

/-- The address masking started at byte index zero. -/
def maskAddrBytes (bs : List Nat) (plen : Nat) : List Nat :=
  maskBytesGo plen 0 bs

/-- Overwrite the data of the first option with this code, else append
(the `exists` loop of `SetEdnsSubnet`). -/
def setOption (opts : List (Nat × List Nat)) (code : Nat) (data : List Nat) :
    List (Nat × List Nat) :=
  match opts with
  | [] => [(code, data)]
  | (c, d) :: rest =>
      if c = code then (code, data) :: rest
      else (c, d) :: setOption rest code data

/-- First option with a given code, as consumers of the option list read it. -/
def findOption (opts : List (Nat × List Nat)) (code : Nat) :
    Option (List Nat) :=
  match opts with
  | [] => none
  | (c, d) :: rest => if c = code then some d else findOption rest code

/-- `QueryMsg.SetEdnsSubnet`: reject unspecified addresses, install the EDNS0
pseudo-header, normalize the prefix length to the family default when zero or
out of range, mask and truncate the address, and store the client-subnet
option (code 8) with family, source prefix, zero scope prefix and address. -/
def setEdnsSubnet (m : QueryMsg) (ip : Addr) (prefixLen : Int) :
    Option QueryMsg :=
  if ip.isUnspecified then none
  else
    let fam : Nat := match ip with | .v4 _ => 1 | .v6 _ => 2
    let bits : Int := match ip with | .v4 _ => 32 | .v6 _ => 128
    let dflt : Nat := match ip with | .v4 _ => 24 | .v6 _ => 56
    let plen : Nat :=
      if prefixLen ≤ 0 ∨ bits < prefixLen then dflt else prefixLen.toNat
    let address := (maskAddrBytes ip.bytes plen).take ((plen + 7) / 8)
    let data := packU16 fam ++ [plen % 256, 0] ++ address
    let prevOptions := (m.opt.map (fun o => o.options)).getD []
    some { m with opt := some ⟨ednsHeader, setOption prevOptions 8 data⟩ }

/-- The ECS family code of the claim: 1 for IPv4, 2 for IPv6. -/
def ecsFamily : Addr → Nat
  | .v4 _ => 1
  | .v6 _ => 2

/-- The address width in bits: 32 for IPv4, 128 for IPv6. -/
def ecsBits : Addr → Int
  | .v4 _ => 32
  | .v6 _ => 128

/-- The default source prefix length of the claim: 24 for IPv4, 56 for
IPv6. -/
def ecsDefaultPrefix : Addr → Nat
  | .v4 _ => 24
  | .v6 _ => 56

/-- The effective source prefix length of the claim: the family default when
the given length is zero, negative or beyond the address width, else the
given length. -/
def ecsEffPrefix (ip : Addr) (prefixLen : Int) : Nat :=
  if prefixLen ≤ 0 ∨ ecsBits ip < prefixLen then ecsDefaultPrefix ip
  else prefixLen.toNat

/-- The address widths the two families carry: 4 and 16 bytes. -/
def addrWidthBytes : Addr → Nat
  | .v4 _ => 4
  | .v6 _ => 16

end Dnsmsg

/-! ## Forwarder (src/dns/forwarder.go)

`handleQuery` gates the packet length, parses via `dnsmsg.NewQueryMsg`, and
on a query error replies with the original query patched to ServFail through
`dnsmsg.RawMsg.SetRCode`, whose implementation file is absent from the
sources.
-/

namespace Forwarder

/-- Modelled from the spec: `set_rcode(raw, rcode)` of the absent
`util/dnsmsg` file — set the QR bit of byte 2, clear the low nibble of byte
3 and or-in `rcode & 0x0F`.  A message shorter than four bytes would make the
Go code panic, embedded as `none`. -/
def setRCode (msg : List Nat) (rcode : Nat) : Option (List Nat) :=
  match msg with
  | b0 :: b1 :: b2 :: b3 :: rest =>
      some (b0 :: b1 :: (b2 ||| 128) :: ((b3 &&& 240) ||| (rcode &&& 15)) :: rest)
  | _ => none

/-- The drop decision of `Forwarder.handleQuery` (lines 902-930): a packet is
dropped silently iff its length is at most `minQuerySize = 12` bytes or it
fails to parse.  No upper length bound is checked here. -/
def handleQueryDrops (msg : List Nat) : Bool :=
  msg.length ≤ 12 ∨ (Dnsmsg.newQueryMsg msg).isNone

/-- `Forwarder.handleQuery` when no resolver is configured: after the length
gate and the parse, `query` fails with `errResolverNotFound` and `reply`
delivers the original query patched to ServFail (RCODE 2). -/
def handleQueryNoResolver (msg : List Nat) : Option (List Nat) :=
  if msg.length ≤ 12 then none
  else
    match Dnsmsg.newQueryMsg msg with
    | none => none
    | some _ => setRCode msg 2

end Forwarder

/-! ## Concrete inputs used by the theorems -/

namespace Inputs

/-- The zone "com". -/
def zCom : List Nat := [99, 111, 109]

/-- The zone "3.com". -/
def z3Com : List Nat := [51, 46, 99, 111, 109]

/-- The zone "x.com". -/
def zXCom : List Nat := [120, 46, 99, 111, 109]

/-- The zone "y.com". -/
def zYCom : List Nat := [121, 46, 99, 111, 109]

/-- The query name "a.com". -/
def nACom : List Nat := [97, 46, 99, 111, 109]

/-- The zone "example.com". -/
def zExampleCom : List Nat :=
  [101, 120, 97, 109, 112, 108, 101, 46, 99, 111, 109]

/-- The query name "xxxexample.com". -/
def nXxxExample : List Nat := [120, 120, 120] ++ zExampleCom

/-- The seed A query for `www.example.com` with ID 0x1234 (spec section 8). -/
def seedQuery : List Nat :=
  [18, 52, 1, 0, 0, 1, 0, 0, 0, 0, 0, 0,
   3, 119, 119, 119, 7, 101, 120, 97, 109, 112, 108, 101, 3, 99, 111, 109, 0,
   0, 1, 0, 1]

/-- A well-formed 525-byte query: the seed question plus one 481-byte TXT
additional record. -/
def bigQuery : List Nat :=
  [18, 52, 1, 0, 0, 1, 0, 0, 0, 0, 0, 1,
   3, 119, 119, 119, 7, 101, 120, 97, 109, 112, 108, 101, 3, 99, 111, 109, 0,
   0, 1, 0, 1] ++
  [0, 0, 16, 0, 1, 0, 0, 0, 0, 1, 225] ++ List.replicate 481 0

/-- A twelve-byte message: a bare DNS header. -/
def headerOnly : List Nat := [18, 52, 1, 0, 0, 1, 0, 0, 0, 0, 0, 0]

/-- The ServFail patch of the seed query: QR bit set on byte 2, low nibble of
byte 3 set to 2. -/
def seedServFail : List Nat :=
  [18, 52, 129, 2, 0, 1, 0, 0, 0, 0, 0, 0,
   3, 119, 119, 119, 7, 101, 120, 97, 109, 112, 108, 101, 3, 99, 111, 109, 0,
   0, 1, 0, 1]

/-- A message whose additionals hold two OPT records: the first with one
option (code 1), the second with two options (codes 2 and 8). -/
def twoOptQuery : List Nat :=
  [18, 52, 1, 0, 0, 1, 0, 0, 0, 0, 0, 2,
   3, 119, 119, 119, 7, 101, 120, 97, 109, 112, 108, 101, 3, 99, 111, 109, 0,
   0, 1, 0, 1] ++
  [0, 0, 41, 16, 0, 0, 0, 0, 0, 0, 7, 0, 1, 0, 3, 1, 2, 3] ++
  [0, 0, 41, 16, 0, 0, 0, 0, 0, 0, 17, 0, 2, 0, 3, 3, 2, 1, 0, 8, 0, 6,
   0, 1, 0, 1, 0, 1]

/-- The seed query as a parsed `QueryMsg` without an OPT record. -/
def seedParsed : Dnsmsg.QueryMsg :=
  { header := ⟨4660, 256, 1, 0, 0, 0⟩
    question := ⟨[119, 119, 119, 46, 101, 120, 97, 109, 112, 108, 101, 46,
      99, 111, 109, 46], 1, 1⟩
    opt := none }

/-- The seed query after injecting ECS for 203.0.113.5 with the default
prefix. -/
def seedParsedEcs : Dnsmsg.QueryMsg :=
  { seedParsed with
    opt := some ⟨Dnsmsg.ednsHeader, [(8, [0, 1, 24, 0, 203, 0, 113])]⟩ }

/-- The first OPT record of `twoOptQuery` as parsed: class 4096, one option
with code 1. -/
def twoOptFirst : Dnsmsg.OptData :=
  ⟨⟨[46], 41, 4096, 0, 7⟩, [(1, [1, 2, 3])]⟩

/-- The second OPT record of `twoOptQuery` as parsed: two options with codes
2 and 8. -/
def twoOptSecond : Dnsmsg.OptData :=
  ⟨⟨[46], 41, 4096, 0, 17⟩, [(2, [3, 2, 1]), (8, [0, 1, 0, 1, 0, 1])]⟩

/-- A resolver export with keep-alive enabled, a non-zero idle and interval,
and a zero probe count. -/
def keepaliveInput : Resolver.ResolverExport :=
  { name := "r1", protocol := "dot", address := "1.2.3.4:53", serverName := ""
    poolMaxConns := 0, poolIdleConns := 0
    dialTimeout := 0, handshakeTimeout := 0
    keepaliveEnable := true
    keepaliveIdle := 7, keepaliveInterval := 9, keepaliveCount := 0 }

/-- The bytes `QueryMsg.Build` produces for the parsed seed query. -/
def seedOut : List Nat :=
  [18, 52, 1, 0, 0, 1, 0, 0, 0, 0, 0, 0, 3, 119, 119, 119, 7, 101, 120, 97,
   109, 112, 108, 101, 3, 99, 111, 109, 0, 0, 1, 0, 1]

end Inputs

/-! ## Claim theorems -/

/-- C1 (failing input): in the trie of zones {com, 3.com, x.com, y.com} the
name "a.com" matches no zone according to `DNSTrie.Match`, although the zone
"com" satisfies the claim's suffix condition and the recursive
`LongestPrefixR`, which the crit-bit tests require to agree with the
iterative `LongestPrefix`, does return the key of "com".  The claim's own
negative example — "xxxexample.com" must not match "example.com" — does
hold. -/
theorem dnstrie_match_misses_zone :
    (DNSTrie.trieOfZones [Inputs.zCom, Inputs.z3Com, Inputs.zXCom,
        Inputs.zYCom]).map
        (fun t => (DNSTrie.matchName t Inputs.nACom,
                   DNSTrie.matchNameR t Inputs.nACom))
      = some (none, some (DNSTrie.newKey Inputs.zCom))
    ∧ DNSTrie.zoneMatches Inputs.nACom Inputs.zCom = true
    ∧ (DNSTrie.trieOfZones [Inputs.zExampleCom]).map
        (fun t => DNSTrie.matchName t Inputs.nXxxExample) = some none := by
  refine ⟨by decide, by decide, by decide⟩

/-- The export loop fails exactly when some route slot is unset. -/
theorem exportRoutes_eq_none_iff (l : List (Option Router.Route)) :
    ∀ i, (Router.exportRoutes i l = none ↔ ∃ slot ∈ l, slot = none) := by
  induction l with
  | nil => intro i; simp [Router.exportRoutes]
  | cons hd tl ih =>
      intro i
      cases hd with
      | none => simp [Router.exportRoutes]
      | some rr =>
          simp only [Router.exportRoutes, Option.map_eq_none', List.mem_cons]
          constructor
          · intro h
            rcases (ih (i + 1)).mp h with ⟨slot, hs, he⟩
            exact ⟨slot, Or.inr hs, he⟩
          · rintro ⟨slot, hmem, he⟩
            rcases hmem with h1 | h2
            · cases h1.symm.trans he
            · exact (ih (i + 1)).mpr ⟨slot, h2, he⟩

/-- C10: `Router.Export` reads `rr.name` of every slot of the fixed routes
array without a nil check, so the snapshot is undefined (a nil dereference,
embedded as `none`) exactly when at least one slot is unset; in particular a
freshly created router cannot be exported. -/
theorem router_export_requires_full_slots :
    (∀ r : Router.RouterState,
        Router.exportRouter r = none ↔ ∃ slot ∈ r.routes, slot = none)
    ∧ Router.exportRouter Router.freshRouter = none := by
  have hmain : ∀ r : Router.RouterState,
      Router.exportRouter r = none ↔ ∃ slot ∈ r.routes, slot = none := by
    intro r
    simpa [Router.exportRouter, Option.map_eq_none'] using
      exportRoutes_eq_none_iff r.routes 0
  refine ⟨hmain, (hmain Router.freshRouter).mpr ?_⟩
  exact ⟨none, by simp [Router.freshRouter, Router.maxRoutes], rfl⟩

/-- C10 witness: a router with slot 1 populated and slot 2 unset has an
undefined export. -/
theorem router_export_witness :
    Router.exportRouter
      { resolver := none
        routes := [some { name := "r", resolver := none, trie := none },
                   none] } = none := by
  refine (router_export_requires_full_slots.1 _).mpr ?_
  exact ⟨none, by simp, rfl⟩

/-- Round trip of a 16-bit big-endian value. -/
theorem u16_roundtrip (n : Nat) (h : n < 65536) :
    n / 256 % 256 * 256 + n % 256 = n := by
  have h2 : n / 256 < 256 := by omega
  rw [Nat.mod_eq_of_lt h2, Nat.mul_comm]
  exact Nat.div_add_mod n 256

/-- A 16-bit read over bytes yields a value below 2^16. -/
theorem getU16_lt (msg : List Nat) (off v : Nat)
    (hb : ∀ b ∈ msg, b < 256) (h : Dnsmsg.getU16 msg off = some v) :
    v < 65536 := by
  simp only [Dnsmsg.getU16, Option.bind_eq_bind, Option.pure_def,
    Option.bind_eq_some, Option.some_inj] at h
  rcases h with ⟨a, ha, b, hbb, hv⟩
  have h1 : a < 256 := hb a (List.getElem?_mem ha)
  have h2 : b < 256 := hb b (List.getElem?_mem hbb)
  omega

/-- C5: a query submitted to the UDP resolver with client ID `x` that is
answered by the upstream returns reply bytes whose ID is exactly `x`, while
the wire query carries the freshly drawn session-map ID and the upstream
response is delivered only under that ID. -/
theorem udp_query_preserves_client_id
    (msg upResp wire reply : List Nat) (newQID : Nat)
    (hb : ∀ b ∈ msg, b < 256) (hq : newQID < 65536)
    (h : ResolverUDP.query msg newQID upResp = some (wire, reply)) :
    ResolverUDP.getID reply = ResolverUDP.getID msg ∧
    ResolverUDP.getID wire = some newQID ∧
    ResolverUDP.getID upResp = some newQID := by
  match msg, upResp with
  | b0 :: b1 :: rest, c0 :: c1 :: rest2 =>
      have hb0 : b0 < 256 := hb b0 (by simp)
      have hb1 : b1 < 256 := hb b1 (by simp)
      simp only [ResolverUDP.query, ResolverUDP.getID, ResolverUDP.setID,
        List.getElem?_cons_zero, List.getElem?_cons_succ,
        Option.bind_eq_bind, Option.pure_def, Option.some_bind] at h ⊢
      by_cases hid : c0 * 256 + c1 = newQID
      · simp only [hid, eq_self_iff_true, if_true, Option.some_inj,
          Prod.mk.injEq] at h
        obtain ⟨hw, hr⟩ := h
        subst hw hr
        simp only [List.getElem?_cons_zero, List.getElem?_cons_succ,
          Option.some_bind, Option.some_inj]
        refine ⟨?_, ?_, hid⟩
        · exact u16_roundtrip (b0 * 256 + b1) (by omega)
        · exact u16_roundtrip newQID hq
      · simp [hid] at h
  | b0 :: b1 :: rest, [] =>
      simp [ResolverUDP.query, ResolverUDP.getID, ResolverUDP.setID] at h
  | b0 :: b1 :: rest, [c0] =>
      simp [ResolverUDP.query, ResolverUDP.getID, ResolverUDP.setID] at h
  | [], _ => simp [ResolverUDP.query, ResolverUDP.getID] at h
  | [b0], _ =>
      simp [ResolverUDP.query, ResolverUDP.getID, ResolverUDP.setID] at h

/-- C5 witness: a concrete query with client ID 0x1234 remapped to 0xABCD on
the wire and restored on the reply. -/
theorem udp_query_preserves_client_id_witness :
    ResolverUDP.getID [171, 205, 0, 1, 9, 9] = some 43981 ∧
    ∃ wire reply,
      ResolverUDP.query [18, 52, 0, 1] 43981 [171, 205, 0, 1, 9, 9]
        = some (wire, reply) ∧
      ResolverUDP.getID reply = ResolverUDP.getID [18, 52, 0, 1] := by
  refine ⟨by decide, [171, 205, 0, 1], [18, 52, 0, 1, 9, 9], by decide, ?_⟩
  exact (udp_query_preserves_client_id [18, 52, 0, 1] [171, 205, 0, 1, 9, 9]
    [171, 205, 0, 1] [18, 52, 0, 1, 9, 9] 43981 (by decide) (by decide)
    (by decide)).1

/-- C7 counterexample: a well-formed 525-byte query is not dropped by
`handleQuery`, although the claim requires every packet longer than 512
bytes to be dropped. -/
theorem handlequery_accepts_oversized :
    Inputs.bigQuery.length = 525 ∧
    Forwarder.handleQueryDrops Inputs.bigQuery = false :=
  ⟨by decide, by decide⟩

/-- C7 (amended): every packet of at most 12 bytes is dropped silently by
`handleQuery` — no reply and no upstream traffic; no upper length bound is
enforced there (the UDP listener's 512-byte read buffer is the only cap). -/
theorem handlequery_drops_short (msg : List Nat) (h : msg.length ≤ 12) :
    Forwarder.handleQueryDrops msg = true ∧
    Forwarder.handleQueryNoResolver msg = none := by
  constructor
  · simp [Forwarder.handleQueryDrops, h]
  · simp [Forwarder.handleQueryNoResolver, h]

/-- C7 witness: a bare 12-byte header is dropped. -/
theorem handlequery_drops_short_witness :
    Forwarder.handleQueryDrops Inputs.headerOnly = true ∧
    Forwarder.handleQueryNoResolver Inputs.headerOnly = none :=
  handlequery_drops_short Inputs.headerOnly (by decide)

/-- Setting an option stores it as the first option of its code. -/
theorem setOption_find (code : Nat) (data : List Nat) :
    ∀ opts : List (Nat × List Nat),
      Dnsmsg.findOption (Dnsmsg.setOption opts code data) code = some data := by
  intro opts
  induction opts with
  | nil => simp [Dnsmsg.setOption, Dnsmsg.findOption]
  | cons hd tl ih =>
      obtain ⟨c, d⟩ := hd
      by_cases hcc : c = code
      · simp [Dnsmsg.setOption, Dnsmsg.findOption, hcc]
      · simp only [Dnsmsg.setOption, Dnsmsg.findOption, if_neg hcc]
        exact ih

/-- Element of the masked byte list. -/
theorem maskBytesGo_getElem (plen : Nat) :
    ∀ (bs : List Nat) (start i : Nat),
      (Dnsmsg.maskBytesGo plen start bs)[i]? =
        (bs[i]?).map (fun b => Dnsmsg.maskByte (min 8 (plen - 8 * (start + i))) b) := by
  intro bs
  induction bs with
  | nil => intro start i; simp [Dnsmsg.maskBytesGo]
  | cons b rest ih =>
      intro start i
      cases i with
      | zero => simp [Dnsmsg.maskBytesGo]
      | succ i =>
          simp only [Dnsmsg.maskBytesGo, List.getElem?_cons_succ]
          rw [ih (start + 1) i]
          have he : start + 1 + i = start + (i + 1) := by omega
          rw [he]

/-- Masking preserves the byte count. -/
theorem maskBytesGo_length (plen : Nat) :
    ∀ (bs : List Nat) (start : Nat),
      (Dnsmsg.maskBytesGo plen start bs).length = bs.length := by
  intro bs
  induction bs with
  | nil => intro start; simp [Dnsmsg.maskBytesGo]
  | cons b rest ih => intro start; simp [Dnsmsg.maskBytesGo, ih]

/-- Bits of a masked byte: cleared below the kept range, preserved above. -/
theorem maskByte_testBit (keep b t : Nat) :
    (Dnsmsg.maskByte keep b).testBit t =
      if 8 - keep ≤ t then b.testBit t else false := by
  unfold Dnsmsg.maskByte
  set k := 8 - keep with hk
  have h1 : b / 2 ^ k = b >>> k := (Nat.shiftRight_eq_div_pow b k).symm
  have h2 : (b >>> k) * 2 ^ k = (b >>> k) <<< k := (Nat.shiftLeft_eq _ k).symm
  rw [h1, h2, Nat.testBit_shiftLeft, Nat.testBit_shiftRight]
  by_cases hkt : k ≤ t
  · rw [if_pos hkt]
    have : k + (t - k) = t := by omega
    simp [hkt, this]
  · rw [if_neg hkt]
    simp [hkt]

/-- C4: for every address and prefix accepted by `SetEdnsSubnet`, the stored
option has code 8 and data laid out as the big-endian family code (1 for
IPv4, 2 for IPv6), the effective source prefix length (the family default 24
or 56 substituted when the given length is zero or out of range), a zero
scope prefix byte, and the address masked to the prefix and truncated to
ceil(prefix/8) bytes. -/
theorem ecs_option_layout (m m2 : Dnsmsg.QueryMsg) (ip : Dnsmsg.Addr) (prefixLen : Int)
    (hwf : ip.bytes.length = Dnsmsg.addrWidthBytes ip)
    (h : Dnsmsg.setEdnsSubnet m ip prefixLen = some m2) :
    ∃ opt addr,
      m2.opt = some opt ∧
      opt.header = Dnsmsg.ednsHeader ∧
      Dnsmsg.findOption opt.options 8 = some (0 :: Dnsmsg.ecsFamily ip ::
        Dnsmsg.ecsEffPrefix ip prefixLen :: 0 :: addr) ∧
      addr.length = (Dnsmsg.ecsEffPrefix ip prefixLen + 7) / 8 ∧
      (∀ i j, i < addr.length → j < 8 →
        (addr.getD i 0).testBit (7 - j) =
          (decide (8 * i + j < Dnsmsg.ecsEffPrefix ip prefixLen) &&
           (ip.bytes.getD i 0).testBit (7 - j))) := by
  cases ip with
  | v4 bs =>
      simp only [Dnsmsg.addrWidthBytes, Dnsmsg.Addr.bytes] at hwf ⊢
      simp only [Dnsmsg.setEdnsSubnet] at h
      split at h
      · exact absurd h (by simp)
      next hunspec =>
        rw [Option.some_inj] at h
        have hp : Dnsmsg.ecsEffPrefix (.v4 bs) prefixLen =
            (if prefixLen ≤ 0 ∨ (32 : Int) < prefixLen then (24 : Nat)
             else prefixLen.toNat) := rfl
        set p : Nat := (if prefixLen ≤ 0 ∨ (32 : Int) < prefixLen then (24 : Nat)
             else prefixLen.toNat) with hpdef
        have hple : p ≤ 32 := by
          rw [hpdef]; split
          · omega
          · next hcond => omega
        have hmod : p % 256 = p := by omega
        have hlen8 : (p + 7) / 8 ≤ bs.length := by omega
        subst h
        refine ⟨_, (Dnsmsg.maskAddrBytes bs p).take ((p + 7) / 8), rfl, rfl, ?_, ?_, ?_⟩
        · rw [hp, setOption_find]
          simp [Dnsmsg.packU16, hmod, Dnsmsg.ecsFamily, Dnsmsg.Addr.bytes]
        · rw [hp]
          simp only [List.length_take, Dnsmsg.maskAddrBytes, maskBytesGo_length]
          omega
        · intro i j hi hj
          rw [hp]
          have hilen : i < (p + 7) / 8 := by
            simp only [List.length_take, Dnsmsg.maskAddrBytes, maskBytesGo_length] at hi
            omega
          have hibs : i < bs.length := by omega
          have hgd : ((Dnsmsg.maskAddrBytes bs p).take ((p + 7) / 8)).getD i 0
              = Dnsmsg.maskByte (min 8 (p - 8 * i)) (bs.getD i 0) := by
            rw [List.getD_eq_getElem?_getD, List.getElem?_take_of_lt hilen,
                Dnsmsg.maskAddrBytes, maskBytesGo_getElem p bs 0 i,
                List.getElem?_eq_getElem hibs]
            simp [List.getD_eq_getElem?_getD, List.getElem?_eq_getElem hibs]
          rw [hgd, maskByte_testBit]
          have hmin : min 8 (p - 8 * i) = 8 ∨ min 8 (p - 8 * i) = p - 8 * i := by
            rcases le_total 8 (p - 8 * i) with hle | hle
            · left; exact Nat.min_eq_left hle
            · right; exact Nat.min_eq_right hle
          by_cases hcond : 8 * i + j < p
          · rw [if_pos (by rcases hmin with hm | hm <;> rw [hm] <;> omega)]
            simp [hcond]
          · rw [if_neg (by rcases hmin with hm | hm <;> rw [hm] <;> omega)]
            simp [hcond]
  | v6 bs =>
      simp only [Dnsmsg.addrWidthBytes, Dnsmsg.Addr.bytes] at hwf ⊢
      simp only [Dnsmsg.setEdnsSubnet] at h
      split at h
      · exact absurd h (by simp)
      next hunspec =>
        rw [Option.some_inj] at h
        have hp : Dnsmsg.ecsEffPrefix (.v6 bs) prefixLen =
            (if prefixLen ≤ 0 ∨ (128 : Int) < prefixLen then (56 : Nat)
             else prefixLen.toNat) := rfl
        set p : Nat := (if prefixLen ≤ 0 ∨ (128 : Int) < prefixLen then (56 : Nat)
             else prefixLen.toNat) with hpdef
        have hple : p ≤ 128 := by
          rw [hpdef]; split
          · omega
          · next hcond => omega
        have hmod : p % 256 = p := by omega
        have hlen8 : (p + 7) / 8 ≤ bs.length := by omega
        subst h
        refine ⟨_, (Dnsmsg.maskAddrBytes bs p).take ((p + 7) / 8), rfl, rfl, ?_, ?_, ?_⟩
        · rw [hp, setOption_find]
          simp [Dnsmsg.packU16, hmod, Dnsmsg.ecsFamily, Dnsmsg.Addr.bytes]
        · rw [hp]
          simp only [List.length_take, Dnsmsg.maskAddrBytes, maskBytesGo_length]
          omega
        · intro i j hi hj
          rw [hp]
          have hilen : i < (p + 7) / 8 := by
            simp only [List.length_take, Dnsmsg.maskAddrBytes, maskBytesGo_length] at hi
            omega
          have hibs : i < bs.length := by omega
          have hgd : ((Dnsmsg.maskAddrBytes bs p).take ((p + 7) / 8)).getD i 0
              = Dnsmsg.maskByte (min 8 (p - 8 * i)) (bs.getD i 0) := by
            rw [List.getD_eq_getElem?_getD, List.getElem?_take_of_lt hilen,
                Dnsmsg.maskAddrBytes, maskBytesGo_getElem p bs 0 i,
                List.getElem?_eq_getElem hibs]
            simp [List.getD_eq_getElem?_getD, List.getElem?_eq_getElem hibs]
          rw [hgd, maskByte_testBit]
          have hmin : min 8 (p - 8 * i) = 8 ∨ min 8 (p - 8 * i) = p - 8 * i := by
            rcases le_total 8 (p - 8 * i) with hle | hle
            · left; exact Nat.min_eq_left hle
            · right; exact Nat.min_eq_right hle
          by_cases hcond : 8 * i + j < p
          · rw [if_pos (by rcases hmin with hm | hm <;> rw [hm] <;> omega)]
            simp [hcond]
          · rw [if_neg (by rcases hmin with hm | hm <;> rw [hm] <;> omega)]
            simp [hcond]


/-- C4 witness: injecting 203.0.113.5 with the default prefix 24 stores
option data 00 01 18 00 cb 00 71. -/
theorem ecs_option_layout_witness :
    ∃ m2 opt addr,
      Dnsmsg.setEdnsSubnet Inputs.seedParsed (Dnsmsg.Addr.v4 [203, 0, 113, 5]) 0
        = some m2 ∧
      m2.opt = some opt ∧
      Dnsmsg.findOption opt.options 8 = some (0 :: 1 :: 24 :: 0 :: addr) ∧
      addr.length = 3 := by
  have hs : Dnsmsg.setEdnsSubnet Inputs.seedParsed
      (Dnsmsg.Addr.v4 [203, 0, 113, 5]) 0 = some Inputs.seedParsedEcs := by
    decide
  obtain ⟨opt, addr, h1, h2, h3, h4, h5⟩ :=
    ecs_option_layout Inputs.seedParsed Inputs.seedParsedEcs
      (Dnsmsg.Addr.v4 [203, 0, 113, 5]) 0 (by decide) hs
  refine ⟨Inputs.seedParsedEcs, opt, addr, hs, h1, ?_, ?_⟩
  · have he : Dnsmsg.ecsEffPrefix (Dnsmsg.Addr.v4 [203, 0, 113, 5]) 0 = 24 := by
      decide
    rw [he] at h3
    have hf : Dnsmsg.ecsFamily (Dnsmsg.Addr.v4 [203, 0, 113, 5]) = 1 := rfl
    rw [hf] at h3
    exact h3
  · have he : Dnsmsg.ecsEffPrefix (Dnsmsg.Addr.v4 [203, 0, 113, 5]) 0 = 24 := by
      decide
    rw [he] at h4
    exact h4

/-- The first-capturing additionals walk agrees with the head of the list of
all OPT records, for any initial accumulator. -/
theorem walk_first_eq_head (msg : List Nat) :
    ∀ (n off : Nat) (acc : Option Dnsmsg.OptData) (l : List Dnsmsg.OptData),
      Dnsmsg.collectAdditionals msg off n = some l →
      Dnsmsg.walkAdditionals msg true off n acc = some (acc.or l.head?) := by
  intro n
  induction n with
  | zero =>
      intro off acc l hc
      simp only [Dnsmsg.collectAdditionals, Option.some_inj] at hc
      subst hc
      cases acc <;> simp [Dnsmsg.walkAdditionals, Option.or]
  | succ n ih =>
      intro off acc l hc
      rw [Dnsmsg.collectAdditionals] at hc
      rw [Dnsmsg.walkAdditionals]
      cases hrh : Dnsmsg.parseRHeader msg off with
      | none => rw [hrh] at hc; simp at hc
      | some p =>
          obtain ⟨h, off2⟩ := p
          rw [hrh] at hc
          simp only [Option.bind_eq_bind, Option.some_bind] at hc ⊢
          by_cases ht : h.rtype = 41
          · rw [if_pos ht] at hc ⊢
            cases hop : Dnsmsg.parseOptions msg (off2 + h.rlength)
                (h.rlength + 1) off2 with
            | none => rw [hop] at hc; simp at hc
            | some opts =>
                rw [hop] at hc
                simp only [Option.some_bind, Option.map_eq_some'] at hc
                obtain ⟨l2, hl2, hl⟩ := hc
                subst hl
                simp only [Option.some_bind, true_and]
                cases acc with
                | none =>
                    simp only [Option.isSome_none, Bool.false_eq_true, if_false]
                    rw [ih (off2 + h.rlength) (some ⟨h, opts⟩) l2 hl2]
                    simp [Option.or]
                | some a =>
                    simp only [Option.isSome_some, if_true]
                    rw [ih (off2 + h.rlength) (some a) l2 hl2]
                    simp [Option.or]
          · rw [if_neg ht] at hc ⊢
            split at hc
            · next hle => rw [if_pos hle]; exact ih _ acc l hc
            · simp at hc

/-- C3: the parse of a query materializes the first OPT record of the
additionals section and drops later ones: whenever the message holds two or
more OPT records, the parsed query's OPT header and options are those of the
first. -/
theorem parse_materializes_first_opt (msg : List Nat) (q : Dnsmsg.QueryMsg)
    (opts : List Dnsmsg.OptData)
    (hp : Dnsmsg.newQueryMsg msg = some q)
    (hc : Dnsmsg.msgOPTs msg = some opts)
    (h2 : 2 ≤ opts.length) : q.opt = opts.head? := by
  simp only [Dnsmsg.newQueryMsg, Dnsmsg.parseQueryMsg, Dnsmsg.msgOPTs]
    at hp hc
  cases hpre : Dnsmsg.parsePreamble msg with
  | none => rw [hpre] at hp; simp at hp
  | some t =>
      obtain ⟨h, qn, off4⟩ := t
      rw [hpre] at hp hc
      simp only [Option.bind_eq_bind, Option.some_bind] at hp hc
      rw [walk_first_eq_head msg h.ar off4 none opts hc] at hp
      simp only [Option.some_bind] at hp
      rw [Option.pure_def, Option.some_inj] at hp
      rw [← hp]
      cases opts <;> simp [Option.or]

/-- C3 witness: the two-OPT message parses to the first OPT record. -/
theorem parse_materializes_first_opt_witness :
    ∃ q, Dnsmsg.newQueryMsg Inputs.twoOptQuery = some q ∧
      q.opt = some Inputs.twoOptFirst := by
  have hp : Dnsmsg.newQueryMsg Inputs.twoOptQuery = some
      { header := ⟨4660, 256, 1, 0, 0, 2⟩
        question := ⟨[119, 119, 119, 46, 101, 120, 97, 109, 112, 108, 101,
          46, 99, 111, 109, 46], 1, 1⟩
        opt := some Inputs.twoOptFirst } := by decide
  have hc : Dnsmsg.msgOPTs Inputs.twoOptQuery
      = some [Inputs.twoOptFirst, Inputs.twoOptSecond] := by decide
  refine ⟨_, hp, ?_⟩
  exact (parse_materializes_first_opt _ _ _ hp hc (by decide)).trans rfl

/-- The patched RCODE byte always has ServFail in its low nibble, whatever
the original nibble was, because the low nibble is cleared before or-ing. -/
theorem servfail_nibble (b : Nat) : ((b &&& 240) ||| 2) % 16 = 2 := by
  have h16 : (16 : Nat) = 2 ^ 4 := rfl
  rw [h16]
  apply Nat.eq_of_testBit_eq
  intro i
  rw [Nat.testBit_mod_two_pow, Nat.testBit_lor, Nat.testBit_land]
  by_cases hi : i < 4
  · interval_cases i <;>
      simp [show Nat.testBit 240 0 = false from by decide,
            show Nat.testBit 240 1 = false from by decide,
            show Nat.testBit 240 2 = false from by decide,
            show Nat.testBit 240 3 = false from by decide]
  · have h2 : Nat.testBit 2 i = false := by
      rw [show (2 : Nat) = 2 ^ 1 from rfl, Nat.testBit_two_pow]
      simp
      omega
    simp [hi, h2]

/-- C6: when no resolver is available, the reply to a well-formed query is
the query itself of identical length with the QR bit of byte 2 set, the low
nibble of byte 3 equal to 2 (ServFail) for every original RCODE nibble, and
every other byte unchanged. -/
theorem noresolver_reply_servfail (msg out : List Nat)
    (h : Forwarder.handleQueryNoResolver msg = some out) :
    out.length = msg.length ∧
    (∃ b2, msg[2]? = some b2 ∧ out[2]? = some (b2 ||| 128)) ∧
    (∃ b3, msg[3]? = some b3 ∧ out[3]? = some ((b3 &&& 240) ||| 2) ∧
           ((b3 &&& 240) ||| 2) % 16 = 2) ∧
    (∀ i, i ≠ 2 → i ≠ 3 → out[i]? = msg[i]?) := by
  simp only [Forwarder.handleQueryNoResolver] at h
  split at h
  · exact absurd h (by simp)
  next hlen =>
    split at h
    · exact absurd h (by simp)
    next q hq =>
      match msg, hlen, h with
      | b0 :: b1 :: b2 :: b3 :: rest, hlen, h =>
          simp only [Forwarder.setRCode,
            show (2 : Nat) &&& 15 = 2 from by decide,
            Option.some_inj] at h
          subst h
          refine ⟨by simp, ⟨b2, by simp, by simp⟩,
                  ⟨b3, by simp, by simp, servfail_nibble b3⟩, ?_⟩
          intro i h2 h3
          match i with
          | 0 => rfl
          | 1 => rfl
          | 2 => exact absurd rfl h2
          | 3 => exact absurd rfl h3
          | n + 4 => simp

/-- C6 witness: the seed query without any resolver yields its own bytes with
the QR bit set and RCODE nibble 2. -/
theorem noresolver_reply_servfail_witness :
    Forwarder.handleQueryNoResolver Inputs.seedQuery
      = some Inputs.seedServFail ∧
    Inputs.seedServFail.length = Inputs.seedQuery.length ∧
    Inputs.seedServFail[3]? = some 2 := by
  have h : Forwarder.handleQueryNoResolver Inputs.seedQuery
      = some Inputs.seedServFail := by decide
  exact ⟨h, (noresolver_reply_servfail Inputs.seedQuery Inputs.seedServFail h).1,
         by decide⟩

/-- C9 (failing input): validating a keep-alive-enabled export whose idle and
interval are non-zero but whose probe count is zero overwrites the idle
seconds with the count default (3) and leaves the count at zero, instead of
defaulting the count and keeping the idle value 7. -/
theorem validate_count_default_clobbers_idle :
    (Resolver.validate Inputs.keepaliveInput).map
        (fun re => (re.keepaliveIdle, re.keepaliveInterval, re.keepaliveCount))
      = some (3, 9, 0) := by
  decide


/-! ### C8: TTL-cache eviction discipline -/

section
open TtlCache
section
variable {V : Type}

theorem find_eq_none (items : List (String × CacheItem V)) (k : String)
    (h : ∀ p ∈ items, p.1 ≠ k) : find items k = none := by
  induction items with
  | nil => rfl
  | cons hd tl ih =>
      simp only [find]
      rw [if_neg (h hd (by simp))]
      exact ih (fun p hp => h p (by simp [hp]))

theorem find_store_self (items : List (String × CacheItem V)) (k : String)
    (it : CacheItem V) : find (store items k it) k = some it := by
  induction items with
  | nil => simp [store, find]
  | cons hd tl ih =>
      obtain ⟨k2, it2⟩ := hd
      by_cases hk : k2 = k
      · simp [store, find, hk]
      · simp only [store, find, if_neg hk]
        exact ih

theorem find_store_other (items : List (String × CacheItem V)) (k k2 : String)
    (it : CacheItem V) (h : k2 ≠ k) :
    find (store items k2 it) k = find items k := by
  induction items with
  | nil => simp [store, find, h]
  | cons hd tl ih =>
      obtain ⟨k3, it3⟩ := hd
      by_cases hk : k3 = k2
      · simp [store, find, hk, h]
      · simp only [store, find, if_neg hk]
        by_cases hk3 : k3 = k
        · simp [hk3]
        · simp only [if_neg hk3]
          exact ih

theorem find_erase_self (items : List (String × CacheItem V)) (k : String)
    (h : items.Pairwise (fun a b => a.1 ≠ b.1)) :
    find (erase items k) k = none := by
  induction items with
  | nil => rfl
  | cons hd tl ih =>
      obtain ⟨k2, it2⟩ := hd
      rw [List.pairwise_cons] at h
      by_cases hk : k2 = k
      · simp only [erase, if_pos hk]
        exact find_eq_none tl k (fun p hp => by
          have := h.1 p hp
          simp only at this
          rw [← hk]; exact fun he => this he.symm)
      · simp only [erase, if_neg hk, find, if_neg hk]
        exact ih h.2

theorem find_erase_other (items : List (String × CacheItem V)) (k k2 : String)
    (h : k2 ≠ k) : find (erase items k2) k = find items k := by
  induction items with
  | nil => rfl
  | cons hd tl ih =>
      obtain ⟨k3, it3⟩ := hd
      by_cases hk : k3 = k2
      · simp only [erase, if_pos hk, find]
        rw [if_neg (by rw [hk]; exact h)]
      · simp only [erase, if_neg hk, find]
        by_cases hk3 : k3 = k
        · simp [hk3]
        · simp only [if_neg hk3]
          exact ih

theorem mem_store (items : List (String × CacheItem V)) (k : String)
    (it : CacheItem V) (p : String × CacheItem V) (h : p ∈ store items k it) :
    p ∈ items ∨ p = (k, it) := by
  induction items with
  | nil => simp [store] at h; simp [h]
  | cons hd tl ih =>
      obtain ⟨k2, it2⟩ := hd
      by_cases hk : k2 = k
      · simp only [store, if_pos hk, List.mem_cons] at h
        rcases h with h | h
        · right; exact h
        · left; simp [h]
      · simp only [store, if_neg hk, List.mem_cons] at h
        rcases h with h | h
        · left; simp [h]
        · rcases ih h with h2 | h2
          · left; simp [h2]
          · right; exact h2

theorem wf_store (items : List (String × CacheItem V)) (k : String)
    (it : CacheItem V) (h : items.Pairwise (fun a b => a.1 ≠ b.1)) :
    (store items k it).Pairwise (fun a b => a.1 ≠ b.1) := by
  induction items with
  | nil => simp [store]
  | cons hd tl ih =>
      obtain ⟨k2, it2⟩ := hd
      rw [List.pairwise_cons] at h
      by_cases hk : k2 = k
      · simp only [store, if_pos hk]
        rw [List.pairwise_cons]
        refine ⟨fun p hp => ?_, h.2⟩
        have := h.1 p hp
        simpa [← hk] using this
      · simp only [store, if_neg hk]
        rw [List.pairwise_cons]
        refine ⟨fun p hp => ?_, ih h.2⟩
        rcases mem_store tl k it p hp with h2 | h2
        · exact h.1 p h2
        · rw [h2]; simpa using fun he => hk he

end

section
variable {V : Type}

theorem erase_sublist (items : List (String × CacheItem V)) (k : String) :
    (erase items k).Sublist items := by
  induction items with
  | nil => simp [erase]
  | cons hd tl ih =>
      obtain ⟨k2, it2⟩ := hd
      by_cases hk : k2 = k
      · simp only [erase, if_pos hk]
        exact List.sublist_cons_self _ _
      · simp only [erase, if_neg hk]
        exact List.Sublist.cons₂ _ ih

theorem wf_erase (items : List (String × CacheItem V)) (k : String)
    (h : items.Pairwise (fun a b => a.1 ≠ b.1)) :
    (erase items k).Pairwise (fun a b => a.1 ≠ b.1) :=
  h.sublist (erase_sublist items k)

theorem evCount_nil_keys (k : String) (evs : List (String × V))
    (h : ∀ e ∈ evs, e.1 ≠ k) : evCount k evs = 0 := by
  unfold evCount
  rw [List.length_eq_zero]
  rw [List.filter_eq_nil_iff]
  intro e he
  simpa using h e he

theorem evCount_cons (k : String) (e : String × V) (evs : List (String × V)) :
    evCount k (e :: evs) = (if e.1 = k then 1 else 0) + evCount k evs := by
  unfold evCount
  rw [List.filter_cons]
  by_cases h : e.1 = k <;> simp [h] <;> omega

theorem evCount_append (k : String) (a b : List (String × V)) :
    evCount k (a ++ b) = evCount k a + evCount k b := by
  unfold evCount
  rw [List.filter_append, List.length_append]

theorem evCount_expired_list (now : Int) (k : String) :
    ∀ items : List (String × CacheItem V),
      items.Pairwise (fun a b => a.1 ≠ b.1) →
      evCount k ((items.filter (fun kv => isExpired kv.2 now)).map
          (fun kv => (kv.1, kv.2.value)))
        = (match find items k with
           | some it => if isExpired it now then 1 else 0
           | none => 0) := by
  intro items
  induction items with
  | nil => intro _; simp [evCount, find]
  | cons hd tl ih =>
      intro h
      obtain ⟨k2, it2⟩ := hd
      rw [List.pairwise_cons] at h
      have htl : k2 = k → evCount k ((tl.filter (fun kv => isExpired kv.2 now)).map
          (fun kv => (kv.1, kv.2.value))) = 0 := by
        intro hk
        apply evCount_nil_keys
        intro e he
        simp only [List.mem_map, List.mem_filter] at he
        obtain ⟨kv, ⟨hkv, _⟩, he2⟩ := he
        rw [← he2, ← hk]
        exact fun hcon => (h.1 kv hkv) hcon.symm
      rw [List.filter_cons]
      by_cases hex : isExpired it2 now
      · rw [if_pos (by simpa using hex)]
        rw [List.map_cons, evCount_cons]
        by_cases hk : k2 = k
        · rw [htl hk]
          simp [find, hk, hex]
        · rw [if_neg (by simpa using hk)]
          simp only [find]
          rw [if_neg hk, Nat.zero_add]
          exact ih h.2
      · rw [if_neg (by simpa using hex)]
        by_cases hk : k2 = k
        · rw [htl hk]
          simp [find, hk, hex]
        · simp only [find]
          rw [if_neg hk]
          exact ih h.2

theorem find_filter_keep (now : Int) (k : String) :
    ∀ items : List (String × CacheItem V),
      items.Pairwise (fun a b => a.1 ≠ b.1) →
      find (items.filter (fun kv => ¬ isExpired kv.2 now)) k
        = (match find items k with
           | some it => if isExpired it now then none else some it
           | none => none) := by
  intro items
  induction items with
  | nil => intro _; simp [find]
  | cons hd tl ih =>
      intro h
      obtain ⟨k2, it2⟩ := hd
      rw [List.pairwise_cons] at h
      rw [List.filter_cons]
      by_cases hex : isExpired it2 now
      · rw [if_neg (by simpa using hex)]
        by_cases hk : k2 = k
        · have hnone : find (tl.filter (fun kv => ¬ isExpired kv.2 now)) k = none := by
            apply find_eq_none
            intro p hp
            have hmem := List.mem_of_mem_filter hp
            rw [← hk]
            exact fun hcon => (h.1 p hmem) hcon.symm
          rw [hnone]
          simp [find, hk, hex]
        · rw [ih h.2]
          simp only [find]
          rw [if_neg hk]
      · rw [if_pos (by simpa using hex)]
        simp only [find]
        by_cases hk : k2 = k
        · rw [if_pos hk, if_pos hk]
          simp [hex]
        · rw [if_neg hk, if_neg hk]
          exact ih h.2

end

section
variable {V : Type}

theorem presentN_le_one (c : Cache V) (k : String) : presentN c k ≤ 1 := by
  unfold presentN; split <;> omega

theorem pop_no_callback (c : Cache V) (now : Int) (k : String) :
    (pop c now k).2.1 = [] := by
  cases h : find c.items k <;> simp [pop, h]

theorem pop_removes (c : Cache V) (now : Int) (k : String) (hwf : WF c) :
    present (pop c now k).1 k = false := by
  cases h : find c.items k
  · simp [pop, h, present]
  · simp [pop, h, present, find_erase_self c.items k hwf]

theorem pop_value (c : Cache V) (now : Int) (k : String) :
    (pop c now k).2.2 = getK c now k := by
  cases h : find c.items k <;> simp [pop, getK, h]

theorem delete_count_self (c : Cache V) (k : String) :
    evCount k (delete c k).2 = (if present c k then 1 else 0) := by
  cases h : find c.items k <;> simp [delete, h, present, evCount]

theorem delete_count_other (c : Cache V) (k k2 : String) (hk : k ≠ k2) :
    evCount k2 (delete c k).2 = 0 := by
  cases h : find c.items k <;> simp [delete, h, evCount, hk]

theorem delete_removes (c : Cache V) (k : String) (hwf : WF c) :
    present (delete c k).1 k = false := by
  cases h : find c.items k
  · simp [delete, h, present]
  · simp [delete, h, present, find_erase_self c.items k hwf]

theorem clean_callback (c : Cache V) (now : Int) (k : String) (hwf : WF c) :
    evCount k (clean c now).2
      = (match find c.items k with
         | some it => if isExpired it now then 1 else 0
         | none => 0) := by
  exact evCount_expired_list now k c.items hwf

theorem clean_keeps (c : Cache V) (now : Int) (k : String) (hwf : WF c) :
    find (clean c now).1.items k
      = (match find c.items k with
         | some it => if isExpired it now then none else some it
         | none => none) := by
  exact find_filter_keep now k c.items hwf

end

section
variable {V : Type}

theorem wf_add (c : Cache V) (now : Int) (k : String) (v : V) (ttl : Int)
    (h : WF c) : WF (add c now k v ttl).1 := by
  cases hf : find c.items k
  · simpa [WF, add, hf] using wf_store c.items k _ h
  · simp only [WF, add, hf]
    split
    · exact wf_store c.items k _ h
    · exact h

theorem wf_pop (c : Cache V) (now : Int) (k : String) (h : WF c) :
    WF (pop c now k).1 := by
  cases hf : find c.items k
  · simpa [pop, hf] using h
  · simpa [WF, pop, hf] using wf_erase c.items k h

theorem wf_delete (c : Cache V) (k : String) (h : WF c) :
    WF (delete c k).1 := by
  cases hf : find c.items k
  · simpa [delete, hf] using h
  · simpa [WF, delete, hf] using wf_erase c.items k h

theorem wf_step (c : Cache V) (op : Op V) (h : WF c) : WF (step c op).1 := by
  cases op with
  | add now k v ttl => exact wf_add c now k v ttl h
  | set now k v ttl => exact wf_store c.items k _ h
  | get now k => exact h
  | pop now k => exact wf_pop c now k h
  | delete k => exact wf_delete c k h
  | clean now => exact h.sublist (List.filter_sublist c.items)

theorem find_add_other (c : Cache V) (now : Int) (k2 k : String) (v : V)
    (ttl : Int) (hk : k2 ≠ k) :
    find (add c now k2 v ttl).1.items k = find c.items k := by
  cases hf : find c.items k2
  · simp [add, hf, find_store_other c.items k k2 _ hk]
  · simp only [add, hf]
    split
    · simp [find_store_other c.items k k2 _ hk]
    · rfl

theorem find_pop_other (c : Cache V) (now : Int) (k2 k : String) (hk : k2 ≠ k) :
    find (pop c now k2).1.items k = find c.items k := by
  cases hf : find c.items k2
  · simp [pop, hf]
  · simp [pop, hf, find_erase_other c.items k k2 hk]

theorem find_delete_other (c : Cache V) (k2 k : String) (hk : k2 ≠ k) :
    find (delete c k2).1.items k = find c.items k := by
  cases hf : find c.items k2
  · simp [delete, hf]
  · simp [delete, hf, find_erase_other c.items k k2 hk]

theorem insCount_cons (k : String) (op : Op V) (ops : List (Op V)) :
    insCount k (op :: ops) = insCount k [op] + insCount k ops := by
  cases op <;> simp [insCount]

end

section
variable {V : Type}

theorem step_bound (c : Cache V) (op : Op V) (k : String) (h : WF c) :
    evCount k (step c op).2 + presentN (step c op).1 k
      ≤ insCount k [op] + presentN c k := by
  cases op with
  | add now k2 v ttl =>
      show evCount k (add c now k2 v ttl).2.1 + presentN (add c now k2 v ttl).1 k
        ≤ insCount k [Op.add now k2 v ttl] + presentN c k
      have hev : (add c now k2 v ttl).2.1 = [] := by
        cases hf : find c.items k2
        · simp [add, hf]
        · simp only [add, hf]
          split <;> rfl
      rw [hev]
      by_cases hk : k2 = k
      · rw [hk]
        have h1 := presentN_le_one (add c now k v ttl).1 k
        simp only [evCount, List.filter_nil, List.length_nil, insCount,
          eq_self_iff_true, if_true]
        omega
      · have hp : presentN (add c now k2 v ttl).1 k = presentN c k := by
          simp [presentN, present, find_add_other c now k2 k v ttl hk]
        rw [hp]
        simp [evCount, insCount, hk]
  | set now k2 v ttl =>
      show evCount k (setK c now k2 v ttl).2 + presentN (setK c now k2 v ttl).1 k
        ≤ insCount k [Op.set now k2 v ttl] + presentN c k
      have hev : (setK c now k2 v ttl).2 = [] := rfl
      rw [hev]
      by_cases hk : k2 = k
      · rw [hk]
        have h1 := presentN_le_one (setK c now k v ttl).1 k
        simp only [evCount, List.filter_nil, List.length_nil, insCount,
          eq_self_iff_true, if_true]
        omega
      · have hp : presentN (setK c now k2 v ttl).1 k = presentN c k := by
          simp [presentN, present, setK, find_store_other c.items k k2 _ hk]
        rw [hp]
        simp [evCount, insCount, hk]
  | get now k2 =>
      show evCount k ([] : List (String × V)) + presentN c k
        ≤ insCount k [Op.get now k2] + presentN c k
      simp [evCount, insCount]
  | pop now k2 =>
      show evCount k (pop c now k2).2.1 + presentN (pop c now k2).1 k
        ≤ insCount k [Op.pop now k2] + presentN c k
      rw [pop_no_callback]
      by_cases hk : k2 = k
      · rw [hk]
        have hp : presentN (pop c now k).1 k = 0 := by
          simp [presentN, pop_removes c now k h]
        rw [hp]
        simp [evCount, insCount]
      · have hp : presentN (pop c now k2).1 k = presentN c k := by
          simp [presentN, present, find_pop_other c now k2 k hk]
        rw [hp]
        simp [evCount, insCount]
  | delete k2 =>
      show evCount k (delete c k2).2 + presentN (delete c k2).1 k
        ≤ insCount k [Op.delete k2] + presentN c k
      by_cases hk : k2 = k
      · rw [hk, delete_count_self c k]
        have hp : presentN (delete c k).1 k = 0 := by
          simp [presentN, delete_removes c k h]
        rw [hp]
        simp only [insCount, presentN]
        omega
      · rw [delete_count_other c k2 k hk]
        have hp : presentN (delete c k2).1 k = presentN c k := by
          simp [presentN, present, find_delete_other c k2 k hk]
        rw [hp]
        simp [insCount]
  | clean now =>
      show evCount k (clean c now).2 + presentN (clean c now).1 k
        ≤ insCount k [Op.clean now] + presentN c k
      rw [clean_callback c now k h]
      have hp : presentN (clean c now).1 k
          = (match find c.items k with
             | some it => if isExpired it now then 0 else 1
             | none => 0) := by
        unfold presentN present
        rw [clean_keeps c now k h]
        cases hf : find c.items k with
        | none => simp
        | some it => by_cases hex : isExpired it now <;> simp [hex]
      rw [hp]
      cases hf : find c.items k with
      | none => simp [insCount]
      | some it =>
          have hc : presentN c k = 1 := by simp [presentN, present, hf]
          rw [hc]
          by_cases hex : isExpired it now <;> simp [hex, insCount]

theorem run_bound (k : String) :
    ∀ (ops : List (Op V)) (c : Cache V), WF c →
      evCount k (run c ops).2 + presentN (run c ops).1 k
        ≤ insCount k ops + presentN c k := by
  intro ops
  induction ops with
  | nil => intro c _; simp [run, evCount, insCount]
  | cons op ops ih =>
      intro c h
      have h1 := step_bound c op k h
      have h2 := ih (step c op).1 (wf_step c op h)
      have h3 : run c (op :: ops)
          = ((run (step c op).1 ops).1,
             (step c op).2 ++ (run (step c op).1 ops).2) := rfl
      rw [h3]
      dsimp only
      rw [evCount_append, insCount_cons]
      omega

end

/-- C8: the eviction discipline of the TTL cache.  `Pop` removes the entry
synchronously, fires no eviction callback, and returns the value exactly
when a `Get` at the same instant would (i.e. only while the entry is still
valid).  `Delete` fires the callback exactly once when the key is present
(never for another key) and removes the entry.  A sweeper tick (`clean`)
fires the callback exactly once for each present expired entry, removes
exactly those, and keeps valid entries.  Globally, over any operation
sequence from a well-formed cache, the number of callback invocations for a
key never exceeds the number of insertions of that key plus its initial
presence: each stored entry is evicted at most once. -/
theorem ttlcache_eviction_discipline :
    (∀ (V : Type) (c : Cache V) (now : Int) (k : String),
        (pop c now k).2.1 = [] ∧ (pop c now k).2.2 = getK c now k) ∧
    (∀ (V : Type) (c : Cache V) (now : Int) (k : String), WF c →
        present (pop c now k).1 k = false) ∧
    (∀ (V : Type) (c : Cache V) (k : String), WF c →
        evCount k (delete c k).2 = (if present c k then 1 else 0) ∧
        present (delete c k).1 k = false) ∧
    (∀ (V : Type) (c : Cache V) (k k2 : String), k ≠ k2 →
        evCount k2 (delete c k).2 = 0) ∧
    (∀ (V : Type) (c : Cache V) (now : Int) (k : String), WF c →
        evCount k (clean c now).2
          = (match find c.items k with
             | some it => if isExpired it now then 1 else 0
             | none => 0) ∧
        find (clean c now).1.items k
          = (match find c.items k with
             | some it => if isExpired it now then none else some it
             | none => none)) ∧
    (∀ (V : Type) (c : Cache V) (k : String) (ops : List (Op V)), WF c →
        evCount k (run c ops).2 + presentN (run c ops).1 k
          ≤ insCount k ops + presentN c k) :=
  ⟨fun _ c now k => ⟨pop_no_callback c now k, pop_value c now k⟩,
   fun _ c now k h => pop_removes c now k h,
   fun _ c k h => ⟨delete_count_self c k, delete_removes c k h⟩,
   fun _ c k k2 hk => delete_count_other c k k2 hk,
   fun _ c now k h => ⟨clean_callback c now k h, clean_keeps c now k h⟩,
   fun _ c k ops h => run_bound k ops c h⟩

/-- C8 witness: the trace bound instantiated on a concrete run (two inserts
of key "a", one sweep, one delete, one pop, starting from the empty cache,
whose well-formedness is immediate). -/
theorem ttlcache_eviction_discipline_witness :
    evCount "a" (run (⟨60, []⟩ : Cache Nat) wOps).2
        + presentN (run (⟨60, []⟩ : Cache Nat) wOps).1 "a"
      ≤ insCount "a" wOps + presentN (⟨60, []⟩ : Cache Nat) "a" :=
  ttlcache_eviction_discipline.2.2.2.2.2 Nat ⟨60, []⟩ "a" wOps List.Pairwise.nil
end


/-! ### C2: session-key round trip -/

section
open Dnsmsg

theorem splitDots_ne_nil (text : List Nat) : splitDots text ≠ [] := by
  cases text with
  | nil => simp [splitDots]
  | cons c cs =>
      simp only [splitDots]
      by_cases hc : c = 46
      · simp [hc]
      · simp only [if_neg hc]
        cases splitDots cs <;> simp

theorem joinD_splitDots_dropLast :
    ∀ text : List Nat, text.getLast? = some 46 →
      joinD ((splitDots text).dropLast) = text := by
  intro text
  induction text with
  | nil => intro h; simp at h
  | cons c cs ih =>
      intro h
      cases cs with
      | nil =>
          simp only [List.getLast?_singleton, Option.some_inj] at h
          subst h
          simp [splitDots, joinD]
      | cons d cs2 =>
          rw [List.getLast?_cons_cons] at h
          have ih2 := ih h
          by_cases hc : c = 46
          · subst hc
            have hs : splitDots (46 :: d :: cs2) = [] :: splitDots (d :: cs2) := by
              rw [splitDots]
              simp
            rw [hs, List.dropLast_cons_of_ne_nil (splitDots_ne_nil (d :: cs2))]
            have ih3 : (splitDots (d :: cs2)).dropLast.flatMap
                (fun s => s ++ [46]) = d :: cs2 := ih2
            simp only [joinD, List.flatMap_cons, List.nil_append]
            rw [ih3]
            simp
          · cases hr : splitDots (d :: cs2) with
            | nil => exact absurd hr (splitDots_ne_nil (d :: cs2))
            | cons s rest =>
                have hs : splitDots (c :: d :: cs2) = (c :: s) :: rest := by
                  rw [splitDots, hr]
                  simp [hc]
                rw [hs]
                cases rest with
                | nil =>
                    rw [hr] at ih2
                    simp [joinD] at ih2
                | cons r1 rest2 =>
                    rw [hr] at ih2
                    rw [List.dropLast_cons_of_ne_nil (by simp)] at ih2 ⊢
                    simp only [joinD, List.flatMap_cons] at ih2 ⊢
                    rw [← ih2]
                    simp

theorem parseNameAux_encode (msg : List Nat) :
    ∀ (segs : List (List Nat)) (fuel curr ptrCnt : Nat) (retOff : Option Nat)
      (acc post : List Nat),
      msg.drop curr = encodeSegs segs ++ 0 :: post →
      (∀ s ∈ segs, s.length ≠ 0 ∧ s.length < 64) →
      segs.length < fuel →
      parseNameAux msg fuel curr ptrCnt retOff acc
        = (if (if acc ++ joinD segs = [] then [46] else acc ++ joinD segs).length ≤ 255
           then some ((if acc ++ joinD segs = [] then [46] else acc ++ joinD segs),
                      retOff.getD (curr + (encodeSegs segs).length + 1))
           else none) := by
  intro segs
  induction segs with
  | nil =>
      intro fuel curr ptrCnt retOff acc post hdrop hseg hfuel
      match fuel, hfuel with
      | fuel + 1, _ =>
        have hc : msg[curr]? = some 0 := by
          have h0 := List.getElem?_drop msg curr 0
          rw [hdrop] at h0
          simpa [encodeSegs] using h0.symm
        rw [parseNameAux]
        rw [hc]
        simp [encodeSegs, joinD]
  | cons s segs ih =>
      intro fuel curr ptrCnt retOff acc post hdrop hseg hfuel
      match fuel, hfuel with
      | fuel + 1, hfuel2 =>
        have hsl := hseg s (by simp)
        have henc : encodeSegs (s :: segs) ++ 0 :: post
            = s.length :: (s ++ (encodeSegs segs ++ 0 :: post)) := by
          simp [encodeSegs, List.flatMap_cons]
        rw [henc] at hdrop
        have hc : msg[curr]? = some s.length := by
          have h0 := List.getElem?_drop msg curr 0
          rw [hdrop] at h0
          simpa using h0.symm
        have hdc : msg.drop (curr + 1) = s ++ (encodeSegs segs ++ 0 :: post) := by
          have h1 : msg.drop (curr + 1) = (msg.drop curr).drop 1 := by
            rw [List.drop_drop]
          rw [h1, hdrop]
          simp
        have hlen : msg.length - curr
            = s.length + ((encodeSegs segs).length + (post.length + 1)) + 1 := by
          simpa using congrArg List.length hdrop
        have hcur : curr < msg.length := by
          by_cases hcc : curr < msg.length
          · exact hcc
          · exfalso
            have : msg.drop curr = [] := List.drop_eq_nil_of_le (by omega)
            rw [this] at hdrop
            simp at hdrop
        have hbound : curr + 1 + s.length ≤ msg.length := by omega
        have htake : (msg.drop (curr + 1)).take s.length = s := by
          rw [hdc]
          exact List.take_left s _
        rw [parseNameAux]
        rw [hc]
        simp only [Option.bind_eq_bind, Option.some_bind]
        rw [if_neg hsl.1, if_pos (by omega : s.length < 64), if_pos hbound, htake]
        have hdrop2 : msg.drop (curr + 1 + s.length) = encodeSegs segs ++ 0 :: post := by
          have h1 : msg.drop (curr + 1 + s.length) = (msg.drop (curr + 1)).drop s.length := by
            rw [List.drop_drop]
          rw [h1, hdc]
          exact List.drop_left s _
        rw [ih fuel (curr + 1 + s.length) ptrCnt retOff (acc ++ s ++ [46]) post hdrop2
          (fun s2 hs2 => hseg s2 (by simp [hs2])) (by simp only [List.length_cons] at hfuel2; omega)]
        have hoff : curr + 1 + s.length + (encodeSegs segs).length + 1
            = curr + (encodeSegs (s :: segs)).length + 1 := by
          simp [encodeSegs, List.flatMap_cons]
          omega
        have htext : acc ++ s ++ [46] ++ joinD segs = acc ++ joinD (s :: segs) := by
          simp [joinD, List.flatMap_cons]
        rw [hoff, htext]

theorem encodeSegs_length_ge (segs : List (List Nat)) :
    segs.length ≤ (encodeSegs segs).length := by
  induction segs with
  | nil => simp [encodeSegs]
  | cons s rest ih =>
      simp only [encodeSegs, List.flatMap_cons, List.length_append,
        List.length_cons] at ih ⊢
      omega

theorem parseName_packed (text nw pre post : List Nat)
    (hp : packName text = some nw) :
    parseName (pre ++ nw ++ post) pre.length
      = some (text, pre.length + nw.length) := by
  simp only [packName] at hp
  by_cases h1 : text.length = 0 ∨ 255 < text.length
  · rw [if_pos h1] at hp
    simp at hp
  rw [if_neg h1] at hp
  by_cases h2 : text.getLast? ≠ some 46
  · rw [if_pos h2] at hp
    simp at hp
  rw [if_neg h2] at hp
  have h2' : text.getLast? = some 46 := not_not.mp h2
  by_cases h3 : text = [46]
  · rw [if_pos h3] at hp
    have hnw : nw = [0] := by simpa using hp.symm
    subst hnw
    have hdrop : (pre ++ [0] ++ post).drop pre.length
        = encodeSegs [] ++ 0 :: post := by
      rw [List.append_assoc, List.drop_left]
      simp [encodeSegs]
    rw [parseName, parseNameAux_encode (pre ++ [0] ++ post) [] _ pre.length 0 none [] post
      hdrop (by simp) (by simp only [List.length_nil]; omega)]
    simp [joinD, encodeSegs, h3]
  · rw [if_neg h3] at hp
    have hp2 : (if ((splitDots text).dropLast).all
          (fun s => s.length ≠ 0 ∧ s.length < 64) = true then
        some (((splitDots text).dropLast).flatMap (fun s => s.length :: s) ++ [0])
      else none) = some nw := hp
    by_cases h4 : ((splitDots text).dropLast).all
        (fun s => s.length ≠ 0 ∧ s.length < 64) = true
    · rw [if_pos h4] at hp2
      have hnw : nw = encodeSegs ((splitDots text).dropLast) ++ [0] := by
        simpa [encodeSegs] using hp2.symm
      subst hnw
      have hseg : ∀ s ∈ (splitDots text).dropLast, s.length ≠ 0 ∧ s.length < 64 := by
        intro s hs
        have := List.all_eq_true.mp h4 s hs
        simpa using this
      have hdrop : (pre ++ (encodeSegs ((splitDots text).dropLast) ++ [0]) ++ post).drop
            pre.length
          = encodeSegs ((splitDots text).dropLast) ++ 0 :: post := by
        rw [List.append_assoc, List.drop_left]
        simp
      have hmlen : (pre ++ (encodeSegs ((splitDots text).dropLast) ++ [0]) ++ post).length
          = pre.length + ((encodeSegs ((splitDots text).dropLast)).length + 1)
            + post.length := by
        simp
        omega
      have hfuel : ((splitDots text).dropLast).length
          < 11 * ((pre ++ (encodeSegs ((splitDots text).dropLast) ++ [0]) ++ post).length + 2) := by
        have hge := encodeSegs_length_ge ((splitDots text).dropLast)
        rw [hmlen]
        omega
      rw [parseName, parseNameAux_encode _ ((splitDots text).dropLast) _ pre.length 0 none
        [] post hdrop hseg hfuel]
      have hjoin : joinD ((splitDots text).dropLast) = text :=
        joinD_splitDots_dropLast text h2'
      rw [List.nil_append, hjoin]
      have htne : ¬(text = []) := fun he => h1 (Or.inl (by simp [he]))
      rw [if_neg htne]
      rw [if_pos (show text.length ≤ 255 by omega)]
      simp only [Option.getD_none, List.length_append, List.length_cons,
        List.length_nil, Option.some_inj, Prod.mk.injEq, true_and]
      omega
    · rw [if_neg h4] at hp2
      simp at hp2

theorem getU16_cons2 (a b : Nat) (l : List Nat) (n : Nat) :
    getU16 (a :: b :: l) (n + 2) = getU16 l n := by
  have h1 : (a :: b :: l)[n + 2]? = l[n]? := by
    rw [show n + 2 = n + 1 + 1 from rfl, List.getElem?_cons_succ,
      List.getElem?_cons_succ]
  have h2 : (a :: b :: l)[n + 2 + 1]? = l[n + 1]? := by
    rw [show n + 2 + 1 = n + 1 + 1 + 1 from rfl, List.getElem?_cons_succ,
      List.getElem?_cons_succ]
  rw [getU16, getU16, h1, h2]

theorem getU16_head (a b : Nat) (l : List Nat) :
    getU16 (a :: b :: l) 0 = some (a * 256 + b) := by
  rw [getU16]
  simp

theorem getU16_packU16 (n : Nat) (rest : List Nat) :
    getU16 (packU16 n ++ rest) 0 = some (n % 65536) := by
  rw [packU16, List.cons_append, List.cons_append, List.nil_append, getU16_head,
    Option.some_inj]
  omega

theorem getU16_append_right (l1 rest : List Nat) (n : Nat) :
    getU16 (l1 ++ rest) (l1.length + n) = getU16 rest n := by
  have h1 : (l1 ++ rest)[l1.length + n]? = rest[n]? := by
    rw [List.getElem?_append_right (by omega)]
    congr 1
    omega
  have h2 : (l1 ++ rest)[l1.length + n + 1]? = rest[n + 1]? := by
    rw [List.getElem?_append_right (by omega)]
    congr 1
    omega
  rw [getU16, getU16, h1, h2]

theorem getU16_skip (a : Nat) (rest : List Nat) (n : Nat) :
    getU16 (packU16 a ++ rest) (n + 2) = getU16 rest n := by
  rw [packU16, List.cons_append, List.cons_append, List.nil_append, getU16_cons2]

theorem parseHeader_packed (h : WireHeader) (qd an ns ar : Nat) (rest : List Nat)
    (hid : h.id < 65536) (hfl : h.flags < 65536) (hqd : qd < 65536)
    (han : an < 65536) (hns : ns < 65536) (har : ar < 65536) :
    parseHeader (packHeader h qd an ns ar ++ rest)
      = some ⟨h.id, h.flags, qd, an, ns, ar⟩ := by
  have hassoc : packHeader h qd an ns ar ++ rest
      = packU16 h.id ++ (packU16 h.flags ++ (packU16 qd ++ (packU16 an ++
          (packU16 ns ++ (packU16 ar ++ rest))))) := by
    simp [packHeader, List.append_assoc]
  rw [parseHeader, hassoc]
  rw [getU16_packU16, Nat.mod_eq_of_lt hid]
  rw [show (2 : Nat) = 0 + 2 from rfl, getU16_skip, getU16_packU16,
    Nat.mod_eq_of_lt hfl]
  rw [show (4 : Nat) = 0 + 2 + 2 from rfl, getU16_skip, getU16_skip,
    getU16_packU16, Nat.mod_eq_of_lt hqd]
  rw [show (6 : Nat) = 0 + 2 + 2 + 2 from rfl, getU16_skip, getU16_skip,
    getU16_skip, getU16_packU16, Nat.mod_eq_of_lt han]
  rw [show (8 : Nat) = 0 + 2 + 2 + 2 + 2 from rfl, getU16_skip, getU16_skip,
    getU16_skip, getU16_skip, getU16_packU16, Nat.mod_eq_of_lt hns]
  rw [show (10 : Nat) = 0 + 2 + 2 + 2 + 2 + 2 from rfl, getU16_skip, getU16_skip,
    getU16_skip, getU16_skip, getU16_skip, getU16_packU16, Nat.mod_eq_of_lt har]
  simp

theorem parseQuestion_packed (pre text nw post : List Nat) (t cl : Nat)
    (hp : packName text = some nw) (ht : t < 65536) (hcl : cl < 65536) :
    parseQuestion (pre ++ (nw ++ packU16 t ++ packU16 cl) ++ post) pre.length
      = some (⟨text, t, cl⟩, pre.length + nw.length + 4) := by
  have hm : pre ++ (nw ++ packU16 t ++ packU16 cl) ++ post
      = pre ++ nw ++ (packU16 t ++ (packU16 cl ++ post)) := by
    simp [List.append_assoc]
  rw [parseQuestion, hm]
  rw [parseName_packed text nw pre (packU16 t ++ (packU16 cl ++ post)) hp]
  simp only [Option.bind_eq_bind, Option.some_bind]
  have hofft : pre.length + nw.length = (pre ++ nw).length + 0 := by simp
  have et : getU16 (pre ++ nw ++ (packU16 t ++ (packU16 cl ++ post)))
      (pre.length + nw.length) = some t := by
    rw [hofft, getU16_append_right, getU16_packU16, Nat.mod_eq_of_lt ht]
  have ecl : getU16 (pre ++ nw ++ (packU16 t ++ (packU16 cl ++ post)))
      (pre.length + nw.length + 2) = some cl := by
    rw [show pre.length + nw.length + 2 = (pre ++ nw).length + 2 by simp,
      getU16_append_right, show (2 : Nat) = 0 + 2 from rfl, getU16_skip,
      getU16_packU16, Nat.mod_eq_of_lt hcl]
  rw [et, ecl]
  simp

theorem packHeader_length (h : WireHeader) (qd an ns ar : Nat) :
    (packHeader h qd an ns ar).length = 12 := by
  simp [packHeader, packU16]

/-- C2: for every valid query (any byte string that `NewQueryMsg` parses),
re-packing the parsed query with `Build` and deriving the raw session key
from the packed bytes yields exactly the session key of the original bytes:
the header ID, the question type and the owner name text all survive the
parse/build round trip. -/
theorem session_key_roundtrip (msg out : List Nat) (q : QueryMsg)
    (hb : ∀ b ∈ msg, b < 256)
    (hq : newQueryMsg msg = some q)
    (ho : build q = some out) :
    rawSessionKey out = rawSessionKey msg := by
  simp only [newQueryMsg, parseQueryMsg] at hq
  cases hpre : parsePreamble msg with
  | none => rw [hpre] at hq; simp at hq
  | some t =>
      obtain ⟨h, q0, off4⟩ := t
      rw [hpre] at hq
      simp only [Option.bind_eq_bind, Option.some_bind] at hq
      cases hwalk : walkAdditionals msg true off4 h.ar none with
      | none => rw [hwalk] at hq; simp at hq
      | some opt =>
          rw [hwalk] at hq
          simp only [Option.some_bind, Option.pure_def, Option.some_inj] at hq
          subst hq
          rw [parsePreamble] at hpre
          simp only [Option.bind_eq_bind, Option.bind_eq_some] at hpre
          obtain ⟨hW, hh, hrest⟩ := hpre
          by_cases hqd : hW.qd = 0
          · rw [if_pos hqd] at hrest
            simp at hrest
          rw [if_neg hqd] at hrest
          simp only [Option.bind_eq_bind, Option.bind_eq_some, Option.pure_def,
            Option.some_inj, Prod.mk.injEq] at hrest
          obtain ⟨⟨q0', off1⟩, hpq, off2, hsq, off3, hsr1, off4x, hsr2,
            he1, he2, he3⟩ := hrest
          subst he1
          subst he2
          have hid : hW.id < 65536 := by
            have hcopy := hh
            rw [parseHeader] at hcopy
            simp only [Option.bind_eq_bind, Option.bind_eq_some, Option.pure_def,
              Option.some_inj] at hcopy
            obtain ⟨i, hi, f, hf, qd2, hqd2, an2, han2, ns2, hns2, ar2, har2,
              heq⟩ := hcopy
            rw [← heq]
            exact getU16_lt msg 0 i hb hi
          have hfl : hW.flags < 65536 := by
            have hcopy := hh
            rw [parseHeader] at hcopy
            simp only [Option.bind_eq_bind, Option.bind_eq_some, Option.pure_def,
              Option.some_inj] at hcopy
            obtain ⟨i, hi, f, hf, qd2, hqd2, an2, han2, ns2, hns2, ar2, har2,
              heq⟩ := hcopy
            rw [← heq]
            exact getU16_lt msg 2 f hb hf
          have hq0 : q0'.qtype < 65536 ∧ q0'.qclass < 65536 := by
            have hcopy := hpq
            rw [parseQuestion] at hcopy
            simp only [Option.bind_eq_bind, Option.bind_eq_some, Option.pure_def,
              Option.some_inj, Prod.mk.injEq] at hcopy
            obtain ⟨⟨nm, offn⟩, hpn, tt, htt, cl, hcl, heq1, heq2⟩ := hcopy
            rw [← heq1]
            exact ⟨getU16_lt msg offn tt hb htt, getU16_lt msg (offn + 2) cl hb hcl⟩
          simp only [build, packQuestion] at ho
          cases hpn2 : packName q0'.name with
          | none => rw [hpn2] at ho; simp at ho
          | some nw =>
              rw [hpn2] at ho
              simp only [Option.map_some, Option.some_bind, Option.map_some'] at ho
              have hkey : ∀ ar2 rest2, ar2 < 65536 →
                  rawSessionKey (packHeader hW 1 0 0 ar2 ++
                    ((nw ++ packU16 q0'.qtype ++ packU16 q0'.qclass) ++ rest2))
                    = some (sessionKeyString hW.id q0'.qtype q0'.name) := by
                intro ar2 rest2 har2
                have hpq2 : parseQuestion (packHeader hW 1 0 0 ar2 ++
                      ((nw ++ packU16 q0'.qtype ++ packU16 q0'.qclass) ++ rest2))
                      ((packHeader hW 1 0 0 ar2).length)
                    = some (⟨q0'.name, q0'.qtype, q0'.qclass⟩,
                        (packHeader hW 1 0 0 ar2).length + nw.length + 4) := by
                  rw [show packHeader hW 1 0 0 ar2 ++
                      ((nw ++ packU16 q0'.qtype ++ packU16 q0'.qclass) ++ rest2)
                      = packHeader hW 1 0 0 ar2 ++
                        (nw ++ packU16 q0'.qtype ++ packU16 q0'.qclass) ++ rest2 from
                    (List.append_assoc _ _ _).symm]
                  exact parseQuestion_packed (packHeader hW 1 0 0 ar2) q0'.name nw
                    rest2 q0'.qtype q0'.qclass hpn2 hq0.1 hq0.2
                rw [rawSessionKey]
                rw [parseHeader_packed hW 1 0 0 ar2 _ hid hfl (by omega) (by omega)
                  (by omega) har2]
                simp only [Option.bind_eq_bind, Option.some_bind]
                rw [if_neg (by simp)]
                rw [show (12 : Nat) = (packHeader hW 1 0 0 ar2).length from
                  (packHeader_length hW 1 0 0 ar2).symm]
                rw [hpq2]
                simp [sessionKeyString]
              have hmsgkey : rawSessionKey msg
                  = some (sessionKeyString hW.id q0'.qtype q0'.name) := by
                rw [rawSessionKey, hh]
                simp only [Option.bind_eq_bind, Option.some_bind]
                rw [if_neg hqd, hpq]
                simp [sessionKeyString]
              cases hopt : opt with
              | none =>
                  rw [hopt] at ho
                  simp only [Option.bind_eq_bind, Option.some_bind,
                    Option.pure_def, Option.some_inj] at ho
                  rw [← ho]
                  rw [show packHeader hW 1 0 0 0 ++
                      (nw ++ packU16 q0'.qtype ++ packU16 q0'.qclass)
                      = packHeader hW 1 0 0 0 ++
                        ((nw ++ packU16 q0'.qtype ++ packU16 q0'.qclass) ++ []) by
                    simp]
                  rw [hkey 0 [] (by omega), hmsgkey]
              | some o =>
                  rw [hopt] at ho
                  simp only [Option.bind_eq_bind, Option.some_bind] at ho
                  cases how : packOptRR o with
                  | none => rw [how] at ho; simp at ho
                  | some ow =>
                      rw [how] at ho
                      simp only [Option.bind_eq_bind, Option.some_bind,
                        Option.pure_def, Option.some_inj] at ho
                      rw [← ho]
                      rw [show packHeader hW 1 0 0 1 ++
                          (nw ++ packU16 q0'.qtype ++ packU16 q0'.qclass) ++ ow
                          = packHeader hW 1 0 0 1 ++
                            ((nw ++ packU16 q0'.qtype ++ packU16 q0'.qclass) ++ ow) from
                        List.append_assoc _ _ _]
                      rw [hkey 1 ow (by omega), hmsgkey]

/-- C2 witness: the seed query round-trips to its packed form with the same
session key. -/
theorem session_key_roundtrip_witness :
    rawSessionKey Inputs.seedOut = rawSessionKey Inputs.seedQuery :=
  session_key_roundtrip Inputs.seedQuery Inputs.seedOut Inputs.seedParsed
    (by decide) (by decide) (by decide)

end

end Kexuedns
